import Mathlib

/-!
Verification development for the site-visit scheduling engine
(visit_project/site_scheduler.py).

The embedding models the scheduler over exact rationals: Python float
coordinates and distances become values of type ℚ, and the haversine
function itself is abstracted as a parameter of type DistFn (its
trigonometric body computes no quantity that the scheduling algorithm
inspects other than through comparisons, so every theorem below is proved
for an arbitrary distance function and in particular for haversine).
Python object mutation is modelled by a heap: the list self.sites is the
heap, object references are indices into it, and the mutable pools hold
indices.  Python exceptions (ValueError from list.remove, OverflowError
from date arithmetic past datetime.max, ValueError from strptime) are
modelled with Except.
-/

/-! ### Calendar dates

The scheduler stores its cursor as a datetime and manipulates it with
strptime(start_date, "%Y-%m-%d"), strftime("%Y-%m-%d") and
timedelta(days=1).  Dates are modelled as civil year-month-day triples.
-/

/-- Calendar date, the model of the datetime values used by the scheduler. -/
structure Date where
  year : Nat
  month : Nat
  day : Nat
deriving DecidableEq, Repr

/-- Gregorian leap-year rule, as in the datetime module. -/
def isLeapYear (y : Nat) : Bool :=
  y % 4 == 0 && (y % 100 != 0 || y % 400 == 0)

/-- Number of days of a month in the Gregorian calendar. -/
def daysInMonth (y m : Nat) : Nat :=
  if m = 2 then (if isLeapYear y then 29 else 28)
  else if m = 4 ∨ m = 6 ∨ m = 9 ∨ m = 11 then 30
  else 31

/-- Successor day in the civil calendar: the effect of adding
timedelta(days=1) to a datetime. -/
def nextDay (d : Date) : Date :=
  if d.day < daysInMonth d.year d.month then ⟨d.year, d.month, d.day + 1⟩
  else if d.month < 12 then ⟨d.year, d.month + 1, 1⟩
  else ⟨d.year + 1, 1, 1⟩

/-- Iterated successor day. -/
def addDays : Nat → Date → Date
  | 0, d => d
  | n + 1, d => addDays n (nextDay d)

/-- Largest date representable by the datetime module (datetime.max);
adding one more day raises OverflowError. -/
def pyMaxDate : Date := ⟨9999, 12, 31⟩

/-- Zero-padding to two digits, as the strftime conversions %m and %d do. -/
def pad2 (n : Nat) : String :=
  if n < 10 then "0" ++ toString n else toString n

/-- Rendering of a date by strftime("%Y-%m-%d"): the year unpadded (every
date the scheduler can parse has a four-digit year anyway), month and day
zero-padded to two digits. -/
def fmtDate (d : Date) : String :=
  toString d.year ++ "-" ++ pad2 d.month ++ "-" ++ pad2 d.day

/-- Numeric value of a decimal digit character. -/
def digitVal (c : Char) : Nat := c.toNat - 48

/-- Takes up to k leading decimal digits from a character list, returning
them together with the unconsumed remainder. -/
def takeDigits : Nat → List Char → List Char × List Char
  | 0, cs => ([], cs)
  | _ + 1, [] => ([], [])
  | k + 1, c :: cs =>
      if c.isDigit then
        let r := takeDigits k cs
        (c :: r.1, r.2)
      else ([], c :: cs)

/-- Value of a list of decimal digit characters. -/
def digitsToNat (ds : List Char) : Nat :=
  ds.foldl (fun a c => a * 10 + digitVal c) 0

/-- Parses the strptime field %m or %d: a two-digit group whose value lies
in the range 1..hi is preferred, otherwise a single nonzero digit, which is
exactly the alternation the strptime regular expressions for these fields
try (1[0-2]|0[1-9]|[1-9] for the month, 3[0-1]|[1-2]d|0[1-9]|[1-9]| [1-9]
for the day; allowBlank selects the trailing blank-padded alternative the
day field has and the month field lacks).  Returns the value and the
unconsumed characters. -/
def parseCalendarField (hi : Nat) (allowBlank : Bool) :
    List Char → Option (Nat × List Char)
  | c1 :: c2 :: rest =>
      if c1.isDigit ∧ c2.isDigit ∧ 1 ≤ 10 * digitVal c1 + digitVal c2 ∧
          10 * digitVal c1 + digitVal c2 ≤ hi then
        some (10 * digitVal c1 + digitVal c2, rest)
      else if c1.isDigit ∧ 1 ≤ digitVal c1 ∧ digitVal c1 ≤ 9 then
        some (digitVal c1, c2 :: rest)
      else if allowBlank = true ∧ c1 = ' ' ∧ c2.isDigit ∧
          1 ≤ digitVal c2 ∧ digitVal c2 ≤ 9 then
        some (digitVal c2, rest)
      else none
  | [c1] =>
      if c1.isDigit ∧ 1 ≤ digitVal c1 ∧ digitVal c1 ≤ 9 then
        some (digitVal c1, [])
      else none
  | [] => none

/-- Model of datetime.strptime(s, "%Y-%m-%d"): exactly four digits of
year (the %Y regular expression is four copies of a digit class), a
literal dash, a month in 1..12, a dash, a day in 1..31 possibly written
with a leading blank, end of input; then the datetime constructor
validates the year against MINYEAR = 1 and the day against the length of
the month.  Returns none exactly when the Python call raises
ValueError. -/
def strptimeYmd (s : String) : Option Date :=
  let p := takeDigits 4 s.toList
  if p.1.length ≠ 4 then none
  else
    let y := digitsToNat p.1
    match p.2 with
    | '-' :: r1 =>
        match parseCalendarField 12 false r1 with
        | some (m, r2) =>
            match r2 with
            | '-' :: r3 =>
                match parseCalendarField 31 true r3 with
                | some (d, r4) =>
                    if r4 = [] ∧ 1 ≤ y ∧ d ≤ daysInMonth y m then
                      some ⟨y, m, d⟩
                    else none
                | none => none
            | _ => none
        | none => none
    | _ => none

/-! ### Sites -/

/-- Model of the Site dataclass.  Coordinates are exact rationals standing
for the Python floats.  The attribute team_index is not declared on the
dataclass but added at runtime the first time a date is assigned; it is
modelled as an Option that starts out none (attribute absent). -/
structure Site where
  site_name : String
  latitude : ℚ
  longitude : ℚ
  city : String
  easy_access : String
  subcon : String
  team_number : Int
  date : String
  team_index : Option Int
deriving DecidableEq, Repr

instance : Inhabited Site := ⟨⟨"", 0, 0, "", "", "", 1, "", none⟩⟩

/-- Identity key of a site.  The source encodes it as the string
f-string name_lat_lon; since float repr is injective and contains no
underscore, that string determines and is determined by the triple
(site_name, latitude, longitude), which is used directly here. -/
def siteId (s : Site) : String × ℚ × ℚ :=
  (s.site_name, s.latitude, s.longitude)

/-- Identity key type. -/
abbrev SiteId := String × ℚ × ℚ

/-- Tuple of the eight declared dataclass fields.  The runtime attribute
team_index does not participate in dataclass equality. -/
def siteCore (s : Site) : String × ℚ × ℚ × String × String × String × Int × String :=
  (s.site_name, s.latitude, s.longitude, s.city, s.easy_access, s.subcon,
    s.team_number, s.date)

/-- Python structural equality of two Site records (dataclass eq): the
eight declared fields agree; team_index is ignored. -/
def pyEqb (a b : Site) : Bool :=
  siteCore a == siteCore b

/-- Type of the abstracted distance function, standing for the private
haversine method: latitude and longitude of the first point, then of the
second, to kilometers. -/
abbrev DistFn := ℚ → ℚ → ℚ → ℚ → ℚ

/-! ### Pairing engine (the private method finding all pairs)

The source first generates every candidate pair in the order of index
pairs (i, j) with i before j, keeping those within max_distance.  The set
used_site_ids consulted during generation is created empty and never
added to, so its membership tests never fire; it is carried here verbatim.
The candidates are then stably sorted by distance and scanned greedily,
accepting a candidate when neither of its identity keys was consumed. -/

/-- Comparison used to sort candidate triples: ascending by stored
distance.  Stable sorting with this relation models the Python
list.sort(key=lambda x: x[2]). -/
def distLe {α β : Type} (p q : α × β × ℚ) : Bool :=
  p.2.2 ≤ q.2.2

/-- Candidate generation loop of the pairing method: for each site, pair
it with every later site within max_distance, skipping sites whose key is
in the used set (which the source keeps empty). -/
def pairCandidatesAux (dist : DistFn) (maxD : ℚ) (used : List SiteId) :
    List Site → List (Site × Site × ℚ)
  | [] => []
  | s1 :: rest =>
      if used.any (fun k => k = siteId s1) then
        pairCandidatesAux dist maxD used rest
      else
        (rest.filterMap (fun s2 =>
          if used.any (fun k => k = siteId s2) then none
          else
            let d := dist s1.latitude s1.longitude s2.latitude s2.longitude
            if d ≤ maxD then some (s1, s2, d) else none)) ++
        pairCandidatesAux dist maxD used rest

/-- Greedy selection scan of the pairing method: accept a sorted candidate
exactly when neither of its two identity keys is in the used set, then add
both keys. -/
def greedySelectPairs :
    List (Site × Site × ℚ) → List SiteId → List (Site × Site × ℚ)
  | [], _ => []
  | (s1, s2, d) :: rest, used =>
      if ¬ used.any (fun k => k = siteId s1) ∧ ¬ used.any (fun k => k = siteId s2) then
        (s1, s2, d) :: greedySelectPairs rest (used ++ [siteId s1, siteId s2])
      else
        greedySelectPairs rest used

/-- Model of the private pairing method on a list of site records:
generate candidates, sort them stably by distance, scan greedily. -/
def findAllPairs (dist : DistFn) (sites : List Site) (maxD : ℚ) :
    List (Site × Site × ℚ) :=
  greedySelectPairs ((pairCandidatesAux dist maxD [] sites).mergeSort distLe) []

/-! ### Heap model of the mutable site collection

The list self.sites is the heap; a Python object reference is an index
into it.  The pools the scheduler mutates hold indices, while the list
operations remove and the membership test compare by structural equality
of the referenced records, exactly as the Python list methods do on
dataclass values. -/

/-- Reads a heap cell (the record an object reference points at). -/
def heapGet (heap : List Site) (i : Nat) : Site :=
  heap.getD i default

/-- Effect of the two statements assigning a date: site.date = date_str,
and team_index = 0 when the attribute is absent. -/
def assignDate (heap : List Site) (i : Nat) (ds : String) : List Site :=
  let s := heapGet heap i
  heap.set i
    { s with
      date := ds
      team_index := match s.team_index with | none => some 0 | t => t }

/-- Model of list.remove(target) on a pool of references: drop the first
index whose record is structurally equal to the target record; none models
the ValueError raised when no element matches. -/
def removeFirstIdx (heap : List Site) (target : Site) :
    List Nat → Option (List Nat)
  | [] => none
  | j :: js =>
      if pyEqb (heapGet heap j) target then some js
      else (removeFirstIdx heap target js).map (j :: ·)

/-- Model of the membership test (target in pool) on a pool of
references: some record of the pool is structurally equal to the target
record. -/
def poolHas (heap : List Site) (target : Site) (pool : List Nat) : Bool :=
  pool.any (fun j => pyEqb (heapGet heap j) target)

/-- Lookup of a city center, mirroring the city_centers dict. -/
def centerLookup (centers : List (String × ℚ × ℚ)) (city : String) :
    Option (ℚ × ℚ) :=
  (centers.find? (fun p => p.1 = city)).map (·.2)

/-- Model of the private distance-to-center method: 0.0 when the city has
no recorded center, the distance to the stored center otherwise. -/
def distanceToCenter (dist : DistFn) (centers : List (String × ℚ × ℚ))
    (s : Site) (city : String) : ℚ :=
  match centerLookup centers city with
  | none => 0
  | some c => dist s.latitude s.longitude c.1 c.2

/-! ### Pairing engine on the heap

The scheduling loop calls the pairing method on the group's unassigned
pool; here the same algorithm runs on indices, reading records through the
heap. -/

/-- Candidate generation of the pairing method, on heap indices. -/
def pairCandidatesIdxAux (dist : DistFn) (heap : List Site) (maxD : ℚ)
    (used : List SiteId) : List Nat → List (Nat × Nat × ℚ)
  | [] => []
  | i :: rest =>
      if used.any (fun k => k = siteId (heapGet heap i)) then
        pairCandidatesIdxAux dist heap maxD used rest
      else
        (rest.filterMap (fun j =>
          if used.any (fun k => k = siteId (heapGet heap j)) then none
          else
            let d := dist (heapGet heap i).latitude (heapGet heap i).longitude
              (heapGet heap j).latitude (heapGet heap j).longitude
            if d ≤ maxD then some (i, j, d) else none)) ++
        pairCandidatesIdxAux dist heap maxD used rest

/-- Greedy selection scan of the pairing method, on heap indices. -/
def greedySelectIdx (heap : List Site) :
    List (Nat × Nat × ℚ) → List SiteId → List (Nat × Nat × ℚ)
  | [], _ => []
  | (i, j, d) :: rest, used =>
      if ¬ used.any (fun k => k = siteId (heapGet heap i)) ∧
          ¬ used.any (fun k => k = siteId (heapGet heap j)) then
        (i, j, d) :: greedySelectIdx heap rest
          (used ++ [siteId (heapGet heap i), siteId (heapGet heap j)])
      else
        greedySelectIdx heap rest used

/-- The pairing method applied to a pool of references. -/
def findAllPairsIdx (dist : DistFn) (heap : List Site) (idxs : List Nat)
    (maxD : ℚ) : List (Nat × Nat × ℚ) :=
  greedySelectIdx heap
    ((pairCandidatesIdxAux dist heap maxD [] idxs).mergeSort distLe) []

/-! ### Day assignment loop -/

/-- Which arm of the per-iteration conditional fired: both sites of a
retained pair, the fallback that visits a paired site alone because its
partner is gone, or a plain single site. -/
inductive BranchKind
  | pairBoth
  | pairFallback
  | single
deriving DecidableEq, Repr

/-- Record of one loop iteration: the cursor date it used, the arm taken,
and the references it assigned that date to. -/
structure StepLog where
  date : Date
  branch : BranchKind
  assigned : List Nat
deriving DecidableEq, Repr

/-- Length of a pool after a successful removal. -/
theorem removeFirstIdx_length {heap : List Site} {t : Site} :
    ∀ {pool pool2 : List Nat}, removeFirstIdx heap t pool = some pool2 →
      pool2.length + 1 = pool.length := by
  intro pool
  induction pool with
  | nil => intro pool2 h; simp [removeFirstIdx] at h
  | cons j js ih =>
      intro pool2 h
      by_cases hm : pyEqb (heapGet heap j) t
      · simp [removeFirstIdx, hm] at h
        subst h; rfl
      · simp [removeFirstIdx, hm] at h
        obtain ⟨l2, hl2, rfl⟩ := h
        simp [← ih hl2]

/-- One-day advance of the cursor, modelling current_date += timedelta:
raises OverflowError past datetime.max. -/
def advanceCursor (cur : Date) : Except String Date :=
  if cur = pyMaxDate then .error "OverflowError" else .ok (nextDay cur)


/-- In-place stable sort of the pool by distance of the referenced record
to the city center, the re-sort the loop performs at the top of every
iteration. -/
def sortPool (dist : DistFn) (centers : List (String × ℚ × ℚ))
    (city : String) (heap : List Site) (pool : List Nat) : List Nat :=
  pool.mergeSort (fun a b =>
    distanceToCenter dist centers (heapGet heap a) city ≤
      distanceToCenter dist centers (heapGet heap b) city)

/-- Heap after the single-site assignment statements: the selected record
gets the formatted cursor date and a default team index. -/
def singleHeap (heap : List Site) (nearest : Nat) (cur : Date) : List Site :=
  assignDate heap nearest (fmtDate cur)

/-- Heap after the paired assignment statements: both records of the pair
get the formatted cursor date and a default team index (the day-group
visit order the source also computes affects no stored field). -/
def pairHeap (heap : List Site) (nearest p : Nat) (cur : Date) : List Site :=
  assignDate (assignDate heap nearest (fmtDate cur)) p (fmtDate cur)

/-- One iteration of the while-loop of the scheduling method (the loop
body up to, but not including, the advance of the cursor).  Sorts the pool
in place by distance to the city center, selects the head, branches on the
pair bookkeeping, assigns the formatted cursor date, removes the assigned
references from the pool (list.remove compares records structurally; a
failure is the ValueError) and discards the consumed identity keys from
the bookkeeping.  Returns the log of the iteration and the new state. -/
def scheduleStep (dist : DistFn) (centers : List (String × ℚ × ℚ))
    (city : String) (heap : List Site) (pool : List Nat)
    (paired : List SiteId) (pairMap : SiteId → Option (Nat × ℚ))
    (cur : Date) :
    Except String
      (StepLog × List Site × List Nat × List SiteId ×
        (SiteId → Option (Nat × ℚ))) :=
  match sortPool dist centers city heap pool with
  | [] => .error "ValueError"
  | nearest :: tl =>
    match pairMap (siteId (heapGet heap nearest)) with
    | some pr =>
      if paired.any (fun k => k = siteId (heapGet heap nearest)) then
        -- the selected site belongs to a retained pair
        if poolHas heap (heapGet heap pr.1) (nearest :: tl) then
          -- partner still unassigned: assign the date to both
          match removeFirstIdx (pairHeap heap nearest pr.1 cur)
              (heapGet (pairHeap heap nearest pr.1 cur) nearest)
              (nearest :: tl) with
          | none => .error "ValueError"
          | some pool1 =>
            match removeFirstIdx (pairHeap heap nearest pr.1 cur)
                (heapGet (pairHeap heap nearest pr.1 cur) pr.1) pool1 with
            | none => .error "ValueError"
            | some pool2 =>
              .ok (⟨cur, .pairBoth, [nearest, pr.1]⟩,
                pairHeap heap nearest pr.1 cur, pool2,
                (paired.filter
                    (fun k => ¬ k = siteId (heapGet heap nearest))).filter
                  (fun k =>
                    ¬ k = siteId (heapGet (pairHeap heap nearest pr.1 cur) pr.1)),
                fun k =>
                  if k = siteId (heapGet heap nearest) ∨
                      k = siteId (heapGet (pairHeap heap nearest pr.1 cur) pr.1)
                  then none else pairMap k)
        else
          -- partner already consumed: assign to this site alone
          match removeFirstIdx (singleHeap heap nearest cur)
              (heapGet (singleHeap heap nearest cur) nearest)
              (nearest :: tl) with
          | none => .error "ValueError"
          | some pool1 =>
            .ok (⟨cur, .pairFallback, [nearest]⟩,
              singleHeap heap nearest cur, pool1,
              paired.filter (fun k => ¬ k = siteId (heapGet heap nearest)),
              fun k =>
                if k = siteId (heapGet heap nearest) then none else pairMap k)
      else
        -- not in the paired set: assign to this site alone
        match removeFirstIdx (singleHeap heap nearest cur)
            (heapGet (singleHeap heap nearest cur) nearest)
            (nearest :: tl) with
        | none => .error "ValueError"
        | some pool1 =>
          .ok (⟨cur, .single, [nearest]⟩,
            singleHeap heap nearest cur, pool1, paired, pairMap)
    | none =>
      -- key not in the partner map: assign to this site alone
      match removeFirstIdx (singleHeap heap nearest cur)
          (heapGet (singleHeap heap nearest cur) nearest)
          (nearest :: tl) with
      | none => .error "ValueError"
      | some pool1 =>
        .ok (⟨cur, .single, [nearest]⟩,
          singleHeap heap nearest cur, pool1, paired, pairMap)

/-- Complete inversion of a successful iteration body: the sorted pool is
non-empty and exactly one of the three arms fired, with the output state
spelled out. -/
theorem scheduleStep_ok_inv {dist : DistFn} {centers : List (String × ℚ × ℚ)}
    {city : String} {heap : List Site} {pool : List Nat}
    {paired : List SiteId} {pairMap : SiteId → Option (Nat × ℚ)}
    {cur : Date} {out}
    (h : scheduleStep dist centers city heap pool paired pairMap cur = .ok out) :
    ∃ nearest tl, sortPool dist centers city heap pool = nearest :: tl ∧
      ((∃ pr pool1 pool2,
          pairMap (siteId (heapGet heap nearest)) = some pr ∧
          (paired.any (fun k => k = siteId (heapGet heap nearest))) = true ∧
          poolHas heap (heapGet heap pr.1) (nearest :: tl) = true ∧
          removeFirstIdx (pairHeap heap nearest pr.1 cur)
            (heapGet (pairHeap heap nearest pr.1 cur) nearest)
            (nearest :: tl) = some pool1 ∧
          removeFirstIdx (pairHeap heap nearest pr.1 cur)
            (heapGet (pairHeap heap nearest pr.1 cur) pr.1) pool1 = some pool2 ∧
          out = (⟨cur, .pairBoth, [nearest, pr.1]⟩,
            pairHeap heap nearest pr.1 cur, pool2,
            (paired.filter (fun k => ¬ k = siteId (heapGet heap nearest))).filter
              (fun k =>
                ¬ k = siteId (heapGet (pairHeap heap nearest pr.1 cur) pr.1)),
            fun k =>
              if k = siteId (heapGet heap nearest) ∨
                  k = siteId (heapGet (pairHeap heap nearest pr.1 cur) pr.1)
              then none else pairMap k)) ∨
       (∃ pr pool1,
          pairMap (siteId (heapGet heap nearest)) = some pr ∧
          (paired.any (fun k => k = siteId (heapGet heap nearest))) = true ∧
          poolHas heap (heapGet heap pr.1) (nearest :: tl) = false ∧
          removeFirstIdx (singleHeap heap nearest cur)
            (heapGet (singleHeap heap nearest cur) nearest)
            (nearest :: tl) = some pool1 ∧
          out = (⟨cur, .pairFallback, [nearest]⟩,
            singleHeap heap nearest cur, pool1,
            paired.filter (fun k => ¬ k = siteId (heapGet heap nearest)),
            fun k =>
              if k = siteId (heapGet heap nearest) then none
              else pairMap k)) ∨
       (∃ pool1,
          (pairMap (siteId (heapGet heap nearest)) = none ∨
            (paired.any (fun k => k = siteId (heapGet heap nearest))) = false) ∧
          removeFirstIdx (singleHeap heap nearest cur)
            (heapGet (singleHeap heap nearest cur) nearest)
            (nearest :: tl) = some pool1 ∧
          out = (⟨cur, .single, [nearest]⟩,
            singleHeap heap nearest cur, pool1, paired, pairMap))) := by
  revert h
  unfold scheduleStep
  split
  · intro h; exact absurd h (by simp)
  case _ nearest tl hs =>
    refine fun h => ⟨nearest, tl, hs, ?_⟩
    revert h
    split
    case _ pr hpr =>
      split
      case isTrue hany =>
        split
        case isTrue hhas =>
          split
          · intro h; exact absurd h (by simp)
          case _ pool1 h1 =>
            split
            · intro h; exact absurd h (by simp)
            case _ pool2 h2 =>
              intro h
              simp only [Except.ok.injEq] at h
              exact Or.inl ⟨pr, pool1, pool2, hpr, hany, hhas, h1, h2, h.symm⟩
        case isFalse hhas =>
          split
          · intro h; exact absurd h (by simp)
          case _ pool1 h1 =>
            intro h
            simp only [Except.ok.injEq] at h
            have hhas2 : poolHas heap (heapGet heap pr.1) (nearest :: tl) = false := by
              cases hx : poolHas heap (heapGet heap pr.1) (nearest :: tl) with
              | true => exact absurd hx hhas
              | false => rfl
            exact Or.inr (Or.inl ⟨pr, pool1, hpr, hany, hhas2, h1, h.symm⟩)
      case isFalse hany =>
        split
        · intro h; exact absurd h (by simp)
        case _ pool1 h1 =>
          intro h
          simp only [Except.ok.injEq] at h
          have hany2 :
              (paired.any (fun k => k = siteId (heapGet heap nearest))) = false := by
            cases hx : paired.any (fun k => k = siteId (heapGet heap nearest)) with
            | true => exact absurd hx hany
            | false => rfl
          exact Or.inr (Or.inr ⟨pool1, Or.inr hany2, h1, h.symm⟩)
    case _ hpr =>
      split
      · intro h; exact absurd h (by simp)
      case _ pool1 h1 =>
        intro h
        simp only [Except.ok.injEq] at h
        exact Or.inr (Or.inr ⟨pool1, Or.inl hpr, h1, h.symm⟩)

/-- A successful iteration strictly shrinks the pool. -/
theorem scheduleStep_shrinks {dist : DistFn} {centers : List (String × ℚ × ℚ)}
    {city : String} {heap : List Site} {pool : List Nat}
    {paired : List SiteId} {pairMap : SiteId → Option (Nat × ℚ)}
    {cur : Date} {out}
    (hstep : scheduleStep dist centers city heap pool paired pairMap cur = .ok out) :
    out.2.2.1.length < pool.length := by
  obtain ⟨nearest, tl, hs, hc⟩ := scheduleStep_ok_inv hstep
  have hperm : (nearest :: tl).Perm pool := by
    rw [← hs]
    exact List.mergeSort_perm pool _
  have hslen : tl.length + 1 = pool.length := by
    have := hperm.length_eq
    simpa using this
  rcases hc with ⟨pr, pool1, pool2, _, _, _, h1, h2, hout⟩ |
    ⟨pr, pool1, _, _, _, h1, hout⟩ | ⟨pool1, _, h1, hout⟩ <;>
    subst hout <;> dsimp only <;>
    [skip; skip; skip] <;>
    first
      | (have e1 := removeFirstIdx_length h1
         have e2 := removeFirstIdx_length h2
         simp only [List.length_cons] at e1
         omega)
      | (have e1 := removeFirstIdx_length h1
         simp only [List.length_cons] at e1
         omega)

/-- The while-loop of the scheduling method for one group: terminal on an
empty pool, otherwise one iteration body, then the cursor advances by one
day unconditionally and the loop continues.  Returns the logs of the
completed iterations together with either the final heap or the exception
that escaped the loop. -/
def scheduleLoop (dist : DistFn) (centers : List (String × ℚ × ℚ))
    (city : String) (heap : List Site) (pool : List Nat)
    (paired : List SiteId) (pairMap : SiteId → Option (Nat × ℚ))
    (cur : Date) : List StepLog × Except String (List Site) :=
  if hpool : pool = [] then ([], .ok heap)
  else
    match hstep : scheduleStep dist centers city heap pool paired pairMap cur with
    | .error e => ([], .error e)
    | .ok (log, heap2, pool2, paired2, pm2) =>
        match advanceCursor cur with
        | .error e => ([log], .error e)
        | .ok cur2 =>
            let r := scheduleLoop dist centers city heap2 pool2 paired2 pm2 cur2
            (log :: r.1, r.2)
termination_by pool.length
decreasing_by
  exact scheduleStep_shrinks hstep

/-! ### Grouping, centers, construction -/

/-- Appends an index to its subcontractor bucket, creating the bucket at
the end on first occurrence (Python dict insertion order). -/
def insertSubcon (l : List (String × List Nat)) (sub : String) (i : Nat) :
    List (String × List Nat) :=
  match l with
  | [] => [(sub, [i])]
  | b :: rest =>
      if b.1 = sub then (b.1, b.2 ++ [i]) :: rest
      else b :: insertSubcon rest sub i

/-- Appends an index to its city bucket, creating the bucket at the end on
first occurrence. -/
def insertCity (l : List (String × List (String × List Nat)))
    (city sub : String) (i : Nat) :
    List (String × List (String × List Nat)) :=
  match l with
  | [] => [(city, [(sub, [i])])]
  | b :: rest =>
      if b.1 = city then (b.1, insertSubcon b.2 sub i) :: rest
      else b :: insertCity rest city sub i

/-- The two-level grouping sites_by_city_subcon built at construction:
city, then subcontractor, each in first-occurrence order, holding the
indices of the member sites in input order. -/
def buildNested (sites : List Site) :
    List (String × List (String × List Nat)) :=
  sites.enum.foldl (fun acc p => insertCity acc p.2.city p.2.subcon p.1) []

/-- The per-city centers computed at construction: mean latitude and mean
longitude over all sites of the city across subcontractors.  The source
guards against an empty member list before dividing. -/
def cityCenters (heap : List Site)
    (nested : List (String × List (String × List Nat))) :
    List (String × ℚ × ℚ) :=
  nested.filterMap (fun c =>
    match c.2.flatMap (·.2) with
    | [] => none
    | all =>
        some (c.1,
          ((all.map (fun i => (heapGet heap i).latitude)).foldl (· + ·) 0) / all.length,
          ((all.map (fun i => (heapGet heap i).longitude)).foldl (· + ·) 0) / all.length))

/-- Flattening of the nested grouping into (city, subcontractor, members)
in the iteration order of the two nested loops of the scheduling method. -/
def flattenGroups (nested : List (String × List (String × List Nat))) :
    List (String × String × List Nat) :=
  nested.flatMap (fun c => c.2.map (fun s => (c.1, s.1, s.2)))

/-- Model of the scheduler object: the heap of site records, the parsed
start date, the stored maximum pairing distance, the flattened groups and
the city centers, all fixed at construction. -/
structure SiteScheduler where
  sites : List Site
  current_date : Date
  max_pair_distance : ℚ
  groups : List (String × String × List Nat)
  city_centers : List (String × ℚ × ℚ)

/-- Default maximum pairing distance of the scheduler class, kilometers. -/
def DEFAULT_MAX_PAIR_DISTANCE : ℚ := 5

/-- Start-date handling of the constructor: a falsy argument (absent or
empty string) falls back to the current day, passed here as the parameter
today; otherwise the string is parsed with strptime and a parse failure
is the ValueError the constructor raises. -/
def parseStartDate (start_date : Option String) (today : Date) :
    Except String Date :=
  match start_date with
  | some s =>
      if s = "" then .ok today
      else
        match strptimeYmd s with
        | some d => .ok d
        | none => .error "ValueError: time data does not match format %Y-%m-%d"
  | none => .ok today

/-- Model of the constructor.  The start date is parsed first and a parse
failure propagates as the error, so no scheduler value is produced; on
success the groups and the city centers are built from the input sites.
The stored maximum pairing distance is the supplied value or the class
default of 5.0. -/
def mkSiteScheduler (sites : List Site) (start_date : Option String)
    (max_pair_distance : Option ℚ) (today : Date) :
    Except String SiteScheduler :=
  (parseStartDate start_date today).map (fun cd =>
    { sites := sites
      current_date := cd
      max_pair_distance := max_pair_distance.getD DEFAULT_MAX_PAIR_DISTANCE
      groups := flattenGroups (buildNested sites)
      city_centers := cityCenters sites (buildNested sites) })

/-! ### The scheduling method -/

/-- Pair bookkeeping built from the selected pairs of a group: the set of
identity keys eligible for pairing, and the key-to-(partner, distance)
map, written in pair order so that a later write wins as in the dict. -/
def buildPairState (heap : List Site) (pairs : List (Nat × Nat × ℚ)) :
    List SiteId × (SiteId → Option (Nat × ℚ)) :=
  pairs.foldl
    (fun st t =>
      (st.1 ++ [siteId (heapGet heap t.1), siteId (heapGet heap t.2.1)],
        fun k =>
          if k = siteId (heapGet heap t.2.1) then some (t.1, t.2.2)
          else if k = siteId (heapGet heap t.1) then some (t.2.1, t.2.2)
          else st.2 k))
    ([], fun _ => none)

/-- The unassigned members of a group: those without a date. -/
def groupUnassigned (heap : List Site) (members : List Nat) : List Nat :=
  members.filter (fun i => (heapGet heap i).date = "")

/-- Decidable check that the given references carry pairwise distinct
identity keys (site_name, latitude, longitude). -/
def distinctKeys (heap : List Site) : List Nat → Bool
  | [] => true
  | i :: rest =>
      (rest.all (fun j =>
        decide (siteId (heapGet heap i) ≠ siteId (heapGet heap j)))) &&
        distinctKeys heap rest

/-- Scheduling of one (city, subcontractor) group: filter the unassigned
members, skip an empty group, find the pairs with the literal threshold
5.0 the source passes at the call site, build the pair bookkeeping and run
the day-assignment loop from the given cursor. -/
def scheduleGroup (dist : DistFn) (centers : List (String × ℚ × ℚ))
    (city : String) (heap : List Site) (members : List Nat)
    (startDate : Date) : List StepLog × Except String (List Site) :=
  if groupUnassigned heap members = [] then ([], .ok heap)
  else
    scheduleLoop dist centers city heap (groupUnassigned heap members)
      (buildPairState heap
        (findAllPairsIdx dist heap (groupUnassigned heap members) 5)).1
      (buildPairState heap
        (findAllPairsIdx dist heap (groupUnassigned heap members) 5)).2
      startDate

/-- Iteration over the flattened groups, threading the heap; an exception
escaping one group aborts the whole call as in Python. -/
def scheduleGroupsFold (dist : DistFn) (centers : List (String × ℚ × ℚ))
    (start : Date) : List (String × String × List Nat) → List Site →
    Except String (List Site)
  | [], heap => .ok heap
  | g :: gs, heap =>
      match (scheduleGroup dist centers g.1 heap g.2.2 start).2 with
      | .error e => .error e
      | .ok heap2 => scheduleGroupsFold dist centers start gs heap2

/-- Model of the scheduling method: every group is processed with its
cursor starting at the construction-time date (the source rebinds
city_start_date to self.current_date for every city and never mutates
self.current_date), and the mutated heap is returned. -/
def schedule (dist : DistFn) (sch : SiteScheduler) :
    Except String (List Site) :=
  scheduleGroupsFold dist sch.city_centers sch.current_date sch.groups sch.sites

/-! ### Summary -/

/-- Summary record: total count, count of sites with a date, and the
min/max assigned date strings, absent when nothing is scheduled.  The
source also tallies per-subcontractor and per-city counts; the claims
under verification do not mention them and they are omitted here. -/
structure ScheduleSummary where
  total_sites : Nat
  scheduled_sites : Nat
  date_range : Option (String × String)

/-- Python min over a list of strings (lexicographic, first minimum). -/
def pyMinString : List String → Option String
  | [] => none
  | x :: xs => some (xs.foldl (fun a b => if b < a then b else a) x)

/-- Python max over a list of strings (lexicographic, last maximum). -/
def pyMaxString : List String → Option String
  | [] => none
  | x :: xs => some (xs.foldl (fun a b => if a < b then b else a) x)

/-- Model of the summary method, a pure reducer over the site list. -/
def getScheduleSummary (sites : List Site) : ScheduleSummary :=
  let dates := (sites.filter (fun s => ¬ s.date = "")).map (·.date)
  { total_sites := sites.length
    scheduled_sites := (sites.filter (fun s => ¬ s.date = "")).length
    date_range :=
      match pyMinString dates, pyMaxString dates with
      | some a, some b => some (a, b)
      | _, _ => none }

/-! ### Concrete example inputs used by witnesses -/

/-- Concrete distance function used in witnesses: a scaled L1 distance,
exactly computable on rationals. -/
def egDist : DistFn := fun la1 lo1 la2 lo2 =>
  (if la1 ≤ la2 then la2 - la1 else la1 - la2) * 111 +
  (if lo1 ≤ lo2 then lo2 - lo1 else lo1 - lo2) * 111

/-- Example site A at the origin. -/
def egA : Site := ⟨"A", 0, 0, "City", "", "Sub", 1, "", none⟩

/-- Example site B, 333/100 kilometers from A under egDist. -/
def egB : Site := ⟨"B", 0, 3/100, "City", "", "Sub", 1, "", none⟩

/-- Example site C, far from A and B. -/
def egC : Site := ⟨"C", 1, 1, "City", "", "Sub", 1, "", none⟩

/-- Example site D, in a second city. -/
def egD : Site := ⟨"D", 20, 20, "CityB", "", "Sub", 1, "", none⟩

/-! ### Claim theorems -/

/-- C1.  The claim is refuted by the source: the scheduling method calls
the pairing method with the literal threshold 5.0 instead of the stored
max_pair_distance, so the configured value never influences the pairs the
method forms.  First conjunct: two schedulers constructed over the same
input with different max_pair_distance values produce identical schedules,
for every input whatsoever.  Second conjunct: constructed with
max_pair_distance = 1/1000, the scheduler still pairs two sites lying
333/100 kilometers apart (both receive the start date and the one group
iteration takes the pair arm), which the claim says cannot happen under
threshold 1/1000. -/
theorem schedule_ignores_configured_max_pair_distance :
    (∀ (dist : DistFn) (sites : List Site) (sd : Option String)
        (today : Date) (m m2 : ℚ),
      (mkSiteScheduler sites sd (some m) today).map (schedule dist) =
        (mkSiteScheduler sites sd (some m2) today).map (schedule dist)) ∧
    ((mkSiteScheduler [egA, egB] (some "2025-01-01") (some (1/1000))
        ⟨2026, 1, 1⟩).map
      (fun sch =>
        ((schedule egDist sch).map (fun l => l.map (·.date)),
          (scheduleGroup egDist sch.city_centers "City" sch.sites [0, 1]
            sch.current_date).1.map (·.branch))) =
      .ok (.ok ["2025-01-01", "2025-01-01"], [.pairBoth])) := by
  constructor
  · intro dist sites sd today m m2
    unfold mkSiteScheduler
    cases parseStartDate sd today <;> rfl
  · with_unfolding_all rfl

/-- C7.  Empty input: construction over the empty site list (with any
start configuration that parses) yields a scheduler whose scheduling
method returns the empty collection unchanged, and whose summary reports
zero totals and an absent date range; moreover the summary of any site
collection in which no site carries a non-empty date has no date range
values at all. -/
theorem schedule_empty_input (dist : DistFn) (sd : Option String)
    (m : Option ℚ) (today : Date) (sch : SiteScheduler)
    (h : mkSiteScheduler [] sd m today = .ok sch) :
    schedule dist sch = .ok [] ∧
    getScheduleSummary [] =
      { total_sites := 0, scheduled_sites := 0, date_range := none } ∧
    (∀ sites : List Site, (∀ s ∈ sites, s.date = "") →
      (getScheduleSummary sites).date_range = none) := by
  refine ⟨?_, rfl, ?_⟩
  · have hsch : sch.sites = [] ∧ sch.groups = [] := by
      unfold mkSiteScheduler at h
      cases hp : parseStartDate sd today with
      | error e => rw [hp] at h; exact absurd h (by simp [Except.map])
      | ok cd =>
          rw [hp] at h
          simp only [Except.map, Except.ok.injEq] at h
          subst h
          exact ⟨rfl, rfl⟩
    rw [schedule, hsch.1, hsch.2]
    rfl
  · intro sites hall
    have hf : sites.filter (fun s => ¬ s.date = "") = [] := by
      rw [List.filter_eq_nil_iff]
      intro s hs
      simp [hall s hs]
    rw [getScheduleSummary]
    simp only [hf, List.map_nil]
    rfl

/-- C8.  Construction with a supplied non-empty start date string: when
the string parses under the %Y-%m-%d format the constructor succeeds and
stores the parsed date; when it does not parse, the constructor propagates
the parse error and no scheduler value is produced. -/
theorem mkSiteScheduler_start_date_parse (sites : List Site)
    (m : Option ℚ) (today : Date) (s : String) (hne : s ≠ "") :
    (∀ d, strptimeYmd s = some d →
      ∃ sch, mkSiteScheduler sites (some s) m today = .ok sch ∧
        sch.current_date = d) ∧
    (strptimeYmd s = none →
      ¬ ∃ sch, mkSiteScheduler sites (some s) m today = .ok sch) := by
  constructor
  · intro d hd
    unfold mkSiteScheduler parseStartDate
    simp only [if_neg hne, hd]
    exact ⟨_, rfl, rfl⟩
  · intro hn ⟨sch, hsch⟩
    unfold mkSiteScheduler parseStartDate at hsch
    simp only [if_neg hne, hn] at hsch
    exact absurd hsch (by simp [Except.map])

/-- Witness for C8 at concrete inputs: the strings 2025-03-01 (plain) and
2025-03- 5 (blank-padded day, which the %d expression accepts) parse and
construction succeeds with the parsed date stored; the strings 2025-13-01
(month out of range) and 202-01-01 (only three year digits where %Y
demands four) do not parse and construction fails. -/
theorem mkSiteScheduler_start_date_parse_witness :
    (∃ sch, mkSiteScheduler [] (some "2025-03-01") none ⟨2026, 1, 1⟩ =
        .ok sch ∧ sch.current_date = ⟨2025, 3, 1⟩) ∧
    (∃ sch, mkSiteScheduler [] (some "2025-03- 5") none ⟨2026, 1, 1⟩ =
        .ok sch ∧ sch.current_date = ⟨2025, 3, 5⟩) ∧
    (¬ ∃ sch, mkSiteScheduler [] (some "2025-13-01") none ⟨2026, 1, 1⟩ =
        .ok sch) ∧
    ¬ ∃ sch, mkSiteScheduler [] (some "202-01-01") none ⟨2026, 1, 1⟩ =
        .ok sch :=
  ⟨(mkSiteScheduler_start_date_parse [] none ⟨2026, 1, 1⟩ "2025-03-01"
      (by decide)).1 ⟨2025, 3, 1⟩ (by with_unfolding_all rfl),
    (mkSiteScheduler_start_date_parse [] none ⟨2026, 1, 1⟩ "2025-03- 5"
      (by decide)).1 ⟨2025, 3, 5⟩ (by with_unfolding_all rfl),
    (mkSiteScheduler_start_date_parse [] none ⟨2026, 1, 1⟩ "2025-13-01"
      (by decide)).2 (by with_unfolding_all rfl),
    (mkSiteScheduler_start_date_parse [] none ⟨2026, 1, 1⟩ "202-01-01"
      (by decide)).2 (by with_unfolding_all rfl)⟩

/-- Unfolding: the loop is terminal on the empty pool. -/
theorem scheduleLoop_nil (dist : DistFn) (centers : List (String × ℚ × ℚ))
    (city : String) (heap : List Site) (paired : List SiteId)
    (pairMap : SiteId → Option (Nat × ℚ)) (cur : Date) :
    scheduleLoop dist centers city heap [] paired pairMap cur = ([], .ok heap) := by
  rw [scheduleLoop]
  rfl

/-- Unfolding: a body exception aborts the loop with an empty trace. -/
theorem scheduleLoop_step_err {dist : DistFn} {centers : List (String × ℚ × ℚ)}
    {city : String} {heap : List Site} {pool : List Nat}
    {paired : List SiteId} {pairMap : SiteId → Option (Nat × ℚ)}
    {cur : Date} {e : String}
    (hpool : pool ≠ [])
    (hstep : scheduleStep dist centers city heap pool paired pairMap cur = .error e) :
    scheduleLoop dist centers city heap pool paired pairMap cur = ([], .error e) := by
  rw [scheduleLoop]
  simp only [dif_neg hpool]
  split
  · rename_i e2 h2
    rw [hstep] at h2
    simp only [Except.error.injEq] at h2
    rw [h2]
  · rename_i h2
    rw [hstep] at h2
    exact absurd h2 (by simp)

/-- Unfolding: after a successful body, an overflow of the cursor advance
aborts the loop, keeping the completed iteration in the trace. -/
theorem scheduleLoop_adv_err {dist : DistFn} {centers : List (String × ℚ × ℚ)}
    {city : String} {heap : List Site} {pool : List Nat}
    {paired : List SiteId} {pairMap : SiteId → Option (Nat × ℚ)}
    {cur : Date} {log heap2 pool2 paired2 pm2} {e : String}
    (hpool : pool ≠ [])
    (hstep : scheduleStep dist centers city heap pool paired pairMap cur =
      .ok (log, heap2, pool2, paired2, pm2))
    (hadv : advanceCursor cur = .error e) :
    scheduleLoop dist centers city heap pool paired pairMap cur = ([log], .error e) := by
  rw [scheduleLoop]
  simp only [dif_neg hpool]
  split
  · rename_i e2 h2
    rw [hstep] at h2
    exact absurd h2 (by simp)
  · rename_i log1 heap1 pool1 paired1 pm1 h2
    rw [hstep] at h2
    simp only [Except.ok.injEq, Prod.mk.injEq] at h2
    obtain ⟨h3, h4, h5, h6, h7⟩ := h2
    subst h3 h4 h5 h6 h7
    rw [hadv]

/-- Unfolding: after a successful body and cursor advance, the loop
recurses on the new state with the iteration kept in the trace. -/
theorem scheduleLoop_cons {dist : DistFn} {centers : List (String × ℚ × ℚ)}
    {city : String} {heap : List Site} {pool : List Nat}
    {paired : List SiteId} {pairMap : SiteId → Option (Nat × ℚ)}
    {cur : Date} {log heap2 pool2 paired2 pm2} {cur2 : Date}
    (hpool : pool ≠ [])
    (hstep : scheduleStep dist centers city heap pool paired pairMap cur =
      .ok (log, heap2, pool2, paired2, pm2))
    (hadv : advanceCursor cur = .ok cur2) :
    scheduleLoop dist centers city heap pool paired pairMap cur =
      (log :: (scheduleLoop dist centers city heap2 pool2 paired2 pm2 cur2).1,
        (scheduleLoop dist centers city heap2 pool2 paired2 pm2 cur2).2) := by
  rw [scheduleLoop]
  simp only [dif_neg hpool]
  split
  · rename_i e2 h2
    rw [hstep] at h2
    exact absurd h2 (by simp)
  · rename_i log1 heap1 pool1 paired1 pm1 h2
    rw [hstep] at h2
    simp only [Except.ok.injEq, Prod.mk.injEq] at h2
    obtain ⟨h3, h4, h5, h6, h7⟩ := h2
    subst h3 h4 h5 h6 h7
    rw [hadv]

/-- A successful cursor advance is the civil successor day. -/
theorem advanceCursor_ok {cur cur2 : Date}
    (h : advanceCursor cur = .ok cur2) : cur2 = nextDay cur := by
  unfold advanceCursor at h
  split at h
  · exact absurd h (by simp)
  · simp only [Except.ok.injEq] at h
    exact h.symm

/-- The log of a successful iteration carries the cursor date it was run
with and assigns that date to one or two references. -/
theorem scheduleStep_out_log {dist : DistFn} {centers : List (String × ℚ × ℚ)}
    {city : String} {heap : List Site} {pool : List Nat}
    {paired : List SiteId} {pairMap : SiteId → Option (Nat × ℚ)}
    {cur : Date} {out}
    (hstep : scheduleStep dist centers city heap pool paired pairMap cur = .ok out) :
    out.1.date = cur ∧ out.1.assigned ≠ [] ∧ out.1.assigned.length ≤ 2 := by
  obtain ⟨nearest, tl, hs, hc⟩ := scheduleStep_ok_inv hstep
  rcases hc with ⟨pr, pool1, pool2, _, _, _, _, _, hout⟩ |
    ⟨pr, pool1, _, _, _, _, hout⟩ | ⟨pool1, _, _, hout⟩ <;> subst hout <;> simp

/-- Iterated successor day commutes with one more successor. -/
theorem addDays_succ (n : Nat) (d : Date) :
    addDays (n + 1) d = nextDay (addDays n d) := by
  induction n generalizing d with
  | zero => rfl
  | succ k ih => exact ih (nextDay d)

/-- The dates of the trace of the loop are the consecutive days starting
at the cursor it was entered with, in order. -/
theorem scheduleLoop_trace_dates (dist : DistFn) (centers : List (String × ℚ × ℚ))
    (city : String) (heap : List Site) (pool : List Nat)
    (paired : List SiteId) (pairMap : SiteId → Option (Nat × ℚ)) (cur : Date) :
    ((scheduleLoop dist centers city heap pool paired pairMap cur).1).map StepLog.date =
      (List.range ((scheduleLoop dist centers city heap pool paired pairMap cur).1).length).map
        (fun k => addDays k cur) := by
  induction heap, pool, paired, pairMap, cur using scheduleLoop.induct dist centers city with
  | case1 heap paired pairMap cur =>
      rw [scheduleLoop_nil]
      rfl
  | case2 heap pool paired pairMap cur hpool e hstep =>
      rw [scheduleLoop_step_err hpool hstep]
      rfl
  | case3 heap pool paired pairMap cur hpool log heap2 pool2 paired2 pm2 hstep e hadv =>
      rw [scheduleLoop_adv_err hpool hstep hadv]
      have hlog := (scheduleStep_out_log hstep).1
      simp only [List.map_cons, List.map_nil, List.length_cons, List.length_nil]
      rw [List.range_succ_eq_map]
      simp only [List.range_zero, List.map_cons, List.map_nil]
      rw [hlog]
      rfl
  | case4 heap pool paired pairMap cur hpool log heap2 pool2 paired2 pm2 hstep cur2 hadv ih =>
      rw [scheduleLoop_cons hpool hstep hadv]
      have hlog := (scheduleStep_out_log hstep).1
      have hc2 := advanceCursor_ok hadv
      subst hc2
      simp only [List.map_cons, List.length_cons]
      rw [List.range_succ_eq_map, List.map_cons, List.map_map, hlog, ih]
      rfl

/-- The dates of the trace of one group run are the consecutive days
starting at the cursor the group was entered with. -/
theorem scheduleGroup_trace_dates (dist : DistFn) (centers : List (String × ℚ × ℚ))
    (city : String) (heap : List Site) (members : List Nat) (start : Date) :
    ((scheduleGroup dist centers city heap members start).1).map StepLog.date =
      (List.range ((scheduleGroup dist centers city heap members start).1).length).map
        (fun k => addDays k start) := by
  unfold scheduleGroup
  split
  · rfl
  · exact scheduleLoop_trace_dates dist centers city heap _ _ _ start

/-- C5.  Within one group run, the iteration with index t uses the cursor
date obtained from the group start by t one-day advances, and the next
iteration uses exactly its successor day, whether the iteration placed one
site or two. -/
theorem scheduleGroup_cursor_advances_daily (dist : DistFn)
    (centers : List (String × ℚ × ℚ)) (city : String) (heap : List Site)
    (members : List Nat) (start : Date) (t : Nat)
    (ht : t + 1 < ((scheduleGroup dist centers city heap members start).1).length) :
    (((scheduleGroup dist centers city heap members start).1).map StepLog.date)[t]? =
      some (addDays t start) ∧
    (((scheduleGroup dist centers city heap members start).1).map StepLog.date)[t + 1]? =
      some (nextDay (addDays t start)) := by
  rw [scheduleGroup_trace_dates]
  constructor
  · simp only [List.getElem?_map]
    rw [List.getElem?_range (by omega)]
    rfl
  · simp only [List.getElem?_map]
    rw [List.getElem?_range (by omega)]
    simp [addDays_succ]

/-- Concrete city centers for the three-site example group. -/
def egCenters3 : List (String × ℚ × ℚ) :=
  cityCenters [egA, egB, egC] (buildNested [egA, egB, egC])

/-- Witness for C5 at a concrete three-site group: the run takes two
iterations (the close pair on the start date, the far site the next day),
and the iteration dates are one day apart. -/
theorem scheduleGroup_cursor_advances_daily_witness :
    (((scheduleGroup egDist egCenters3 "City" [egA, egB, egC] [0, 1, 2]
        ⟨2025, 1, 1⟩).1).map StepLog.date)[0]? = some (addDays 0 ⟨2025, 1, 1⟩) ∧
    (((scheduleGroup egDist egCenters3 "City" [egA, egB, egC] [0, 1, 2]
        ⟨2025, 1, 1⟩).1).map StepLog.date)[0 + 1]? =
      some (nextDay (addDays 0 ⟨2025, 1, 1⟩)) :=
  scheduleGroup_cursor_advances_daily egDist egCenters3 "City"
    [egA, egB, egC] [0, 1, 2] ⟨2025, 1, 1⟩ 0
    (by
      have e : ((scheduleGroup egDist egCenters3 "City" [egA, egB, egC]
          [0, 1, 2] ⟨2025, 1, 1⟩).1).length = 2 := by with_unfolding_all rfl
      omega)

/-- C6.  First conjunct: whenever a group run performs at least one
iteration, its first iteration uses exactly the start cursor the group was
entered with (which the scheduling method sets to the construction-time
date for every group).  Second conjunct: the concrete two-city scenario,
one unassigned site per city, same subcontractor, start 2025-03-01 — both
sites receive the date 2025-03-01, showing the per-group cursors are
independent rather than serialized. -/
theorem schedule_group_cursors_start_at_start_date :
    (∀ (dist : DistFn) (centers : List (String × ℚ × ℚ)) (city : String)
        (heap : List Site) (members : List Nat) (start : Date),
      (scheduleGroup dist centers city heap members start).1 ≠ [] →
      (((scheduleGroup dist centers city heap members start).1).map
        StepLog.date)[0]? = some start) ∧
    ((mkSiteScheduler [egA, egD] (some "2025-03-01") none ⟨2026, 1, 1⟩).map
        (fun sch => (schedule egDist sch).map (fun l => l.map (·.date))) =
      .ok (.ok ["2025-03-01", "2025-03-01"])) := by
  constructor
  · intro dist centers city heap members start h
    rw [scheduleGroup_trace_dates]
    simp only [List.getElem?_map]
    rw [List.getElem?_range (List.length_pos.mpr h)]
    rfl
  · with_unfolding_all rfl

/-- Witness for C7 at concrete inputs: the scheduler constructed from the
empty collection schedules it to the unchanged empty collection, and the
summary of the empty collection has no date range. -/
theorem schedule_empty_input_witness :
    schedule egDist ⟨[], ⟨2025, 1, 1⟩, 5, [], []⟩ = .ok [] ∧
    (getScheduleSummary []).date_range = none :=
  ⟨(schedule_empty_input egDist (some "2025-01-01") none ⟨2026, 1, 1⟩
      ⟨[], ⟨2025, 1, 1⟩, 5, [], []⟩ (by with_unfolding_all rfl)).1,
    (schedule_empty_input egDist (some "2025-01-01") none ⟨2026, 1, 1⟩
      ⟨[], ⟨2025, 1, 1⟩, 5, [], []⟩ (by with_unfolding_all rfl)).2.2 []
      (fun s hs => absurd hs (List.not_mem_nil s))⟩

/-! ### Reference pairing per the specification

The specification describes the pairing as: enumerate every unordered
candidate pair over index pairs (i, j) with i < j whose distance is within
the threshold, stably sort ascending by distance with ties in generation
order, then scan greedily, accepting a candidate exactly when neither of
its two site identities was consumed, consuming both on acceptance.  The
definitions below follow those words; the theorem for C2 proves them
equal to the source embedding. -/

/-- Candidate enumeration the specification describes: all index pairs
(i, j) with i < j, in lexicographic generation order, kept when the
distance is at most the threshold. -/
def specCandidatePairs (dist : DistFn) (sites : List Site) (maxD : ℚ) :
    List (Site × Site × ℚ) :=
  (List.range sites.length).flatMap (fun i =>
    (List.range sites.length).filterMap (fun j =>
      if i < j then
        if dist (sites.getD i default).latitude (sites.getD i default).longitude
            (sites.getD j default).latitude (sites.getD j default).longitude ≤ maxD
        then
          some (sites.getD i default, sites.getD j default,
            dist (sites.getD i default).latitude (sites.getD i default).longitude
              (sites.getD j default).latitude (sites.getD j default).longitude)
        else none
      else none))

/-- Greedy scan the specification describes: accept a sorted candidate
exactly when neither site identity was consumed by a previously accepted
pair, consuming both identities on acceptance. -/
def specGreedyScan :
    List (Site × Site × ℚ) → List SiteId → List (Site × Site × ℚ)
  | [], _ => []
  | (s1, s2, d) :: rest, consumed =>
      if siteId s1 ∈ consumed ∨ siteId s2 ∈ consumed then
        specGreedyScan rest consumed
      else (s1, s2, d) :: specGreedyScan rest (siteId s1 :: siteId s2 :: consumed)

/-- The reference greedy matching of the specification: enumerate, stably
sort by distance, scan greedily. -/
def refGreedyMatching (dist : DistFn) (sites : List Site) (maxD : ℚ) :
    List (Site × Site × ℚ) :=
  specGreedyScan ((specCandidatePairs dist sites maxD).mergeSort distLe) []

/-- Evaluation of an index-driven filterMap over a list. -/
theorem filterMap_range_getD {α β : Type} (l : List α) (f : α → Option β)
    (d : α) :
    (List.range l.length).filterMap (fun j => f (l.getD j d)) =
      l.filterMap f := by
  induction l with
  | nil => rfl
  | cons x xs ih =>
      rw [List.length_cons, List.range_succ_eq_map, List.filterMap_cons,
        List.filterMap_map]
      have hcomp :
          ((fun j => f ((x :: xs).getD j d)) ∘ Nat.succ) =
            (fun j => f (xs.getD j d)) := by
        funext j
        simp [List.getD_cons_succ]
      rw [hcomp, ih]
      cases f x <;> simp [List.filterMap_cons]

/-- One cons step of the reference candidate enumeration. -/
theorem specCandidatePairs_cons (dist : DistFn) (s1 : Site) (rest : List Site)
    (maxD : ℚ) :
    specCandidatePairs dist (s1 :: rest) maxD =
      (rest.filterMap (fun s2 =>
        if dist s1.latitude s1.longitude s2.latitude s2.longitude ≤ maxD then
          some (s1, s2,
            dist s1.latitude s1.longitude s2.latitude s2.longitude)
        else none)) ++ specCandidatePairs dist rest maxD := by
  unfold specCandidatePairs
  rw [List.length_cons, List.range_succ_eq_map, List.flatMap_cons,
    List.flatMap_map]
  congr 1
  · -- the i = 0 block enumerates the partners of the head
    rw [List.filterMap_cons]
    rw [if_neg (Nat.lt_irrefl 0)]
    dsimp only
    rw [List.filterMap_map]
    have hcomp :
        ((fun j =>
          if 0 < j then
            if dist ((s1 :: rest).getD 0 default).latitude
                ((s1 :: rest).getD 0 default).longitude
                ((s1 :: rest).getD j default).latitude
                ((s1 :: rest).getD j default).longitude ≤ maxD then
              some ((s1 :: rest).getD 0 default, (s1 :: rest).getD j default,
                dist ((s1 :: rest).getD 0 default).latitude
                  ((s1 :: rest).getD 0 default).longitude
                  ((s1 :: rest).getD j default).latitude
                  ((s1 :: rest).getD j default).longitude)
            else none
          else none) ∘ Nat.succ) =
          (fun j =>
            (fun s2 =>
              if dist s1.latitude s1.longitude s2.latitude s2.longitude ≤ maxD
              then
                some (s1, s2,
                  dist s1.latitude s1.longitude s2.latitude s2.longitude)
              else none) (rest.getD j default)) := by
      funext j
      simp [List.getD_cons_succ, List.getD_cons_zero, Nat.succ_pos]
    rw [hcomp]
    exact filterMap_range_getD rest
      (fun s2 =>
        if dist s1.latitude s1.longitude s2.latitude s2.longitude ≤ maxD then
          some (s1, s2, dist s1.latitude s1.longitude s2.latitude s2.longitude)
        else none) default
  · -- the i > 0 blocks enumerate the candidates of the tail
    congr 1
    funext i
    show List.filterMap _ (0 :: List.map Nat.succ (List.range rest.length)) = _
    rw [List.filterMap_cons]
    rw [if_neg (Nat.not_lt_zero (i + 1))]
    dsimp only
    rw [List.filterMap_map]
    congr 1
    funext j
    simp only [Function.comp, List.getD_cons_succ, Nat.succ_lt_succ_iff]

/-- The candidate generation of the source (with its never-populated used
set) coincides with the enumeration the specification describes. -/
theorem pairCandidatesAux_eq_spec (dist : DistFn) (maxD : ℚ) :
    ∀ sites : List Site,
      pairCandidatesAux dist maxD [] sites = specCandidatePairs dist sites maxD := by
  intro sites
  induction sites with
  | nil => rfl
  | cons s1 rest ih =>
      rw [specCandidatePairs_cons]
      show (if ([] : List SiteId).any (fun k => k = siteId s1) = true then
          pairCandidatesAux dist maxD [] rest
        else _) = _
      simp only [List.any_nil, Bool.false_eq_true, if_false]
      rw [ih]

/-- The greedy scans of the source and of the specification agree whenever
their consumed sets hold the same identities. -/
theorem greedySelectPairs_eq_spec :
    ∀ (l : List (Site × Site × ℚ)) (u1 u2 : List SiteId),
      (∀ k, u1.any (fun x => x = k) = true ↔ k ∈ u2) →
      greedySelectPairs l u1 = specGreedyScan l u2 := by
  intro l
  induction l with
  | nil => intro u1 u2 _; rfl
  | cons t rest ih =>
      intro u1 u2 hmem
      obtain ⟨s1, s2, d⟩ := t
      show (if ¬ u1.any (fun k => k = siteId s1) = true ∧
          ¬ u1.any (fun k => k = siteId s2) = true then _ else _) = _
      rw [specGreedyScan]
      by_cases h1 : siteId s1 ∈ u2
      · rw [if_neg (by rw [hmem]; tauto), if_pos (Or.inl h1)]
        exact ih u1 u2 hmem
      · by_cases h2 : siteId s2 ∈ u2
        · rw [if_neg (by rw [hmem, hmem]; tauto), if_pos (Or.inr h2)]
          exact ih u1 u2 hmem
        · rw [if_pos ⟨by rw [hmem]; exact h1, by rw [hmem]; exact h2⟩,
            if_neg (by tauto)]
          congr 1
          apply ih
          intro k
          simp only [List.any_append, List.any_cons, List.any_nil,
            Bool.or_eq_true, List.mem_cons]
          constructor
          · intro hk
            rcases hk with hk | hk
            · exact Or.inr (Or.inr ((hmem k).mp hk))
            · simp only [decide_eq_true_eq] at hk
              rcases hk with hk | hk | hk
              · exact Or.inl hk.symm
              · exact Or.inr (Or.inl hk.symm)
              · exact absurd hk (by simp)
          · intro hk
            rcases hk with hk | hk | hk
            · exact Or.inr (by simp [hk])
            · exact Or.inr (by simp [hk])
            · exact Or.inl ((hmem k).mpr hk)

/-- C2.  The pairing method equals the reference greedy matching the
specification describes: same candidate enumeration over index pairs
(i, j) with i < j, same stable ascending sort by distance, same greedy
scan with consumption of both site identities on acceptance. -/
theorem findAllPairs_eq_refGreedyMatching (dist : DistFn) (sites : List Site)
    (maxD : ℚ) :
    findAllPairs dist sites maxD = refGreedyMatching dist sites maxD := by
  unfold findAllPairs refGreedyMatching
  rw [pairCandidatesAux_eq_spec]
  exact greedySelectPairs_eq_spec _ [] [] (by simp)

/-- A Bool that is not true is false. -/
theorem bool_eq_false_of_ne {b : Bool} (h : ¬ b = true) : b = false := by
  cases b
  · rfl
  · exact absurd rfl h

/-- Every candidate the generation loop emits stores a distance within the
threshold. -/
theorem pairCandidatesAux_le (dist : DistFn) (maxD : ℚ) :
    ∀ (sites : List Site) (used : List SiteId),
      ∀ p ∈ pairCandidatesAux dist maxD used sites, p.2.2 ≤ maxD := by
  intro sites
  induction sites with
  | nil => intro used p hp; simp [pairCandidatesAux] at hp
  | cons s1 rest ih =>
      intro used p hp
      rw [pairCandidatesAux] at hp
      split at hp
      · exact ih used p hp
      · rw [List.mem_append] at hp
        rcases hp with hp | hp
        · rw [List.mem_filterMap] at hp
          obtain ⟨s2, _, hf⟩ := hp
          dsimp only at hf
          split at hf
          · exact absurd hf (by simp)
          · split at hf
            · rename_i hd
              simp only [Option.some.injEq] at hf
              rw [← hf]
              exact hd
            · exact absurd hf (by simp)
        · exact ih used p hp

/-- The greedy scan only returns candidates it was given. -/
theorem greedySelectPairs_subset :
    ∀ (l : List (Site × Site × ℚ)) (u : List SiteId),
      ∀ p ∈ greedySelectPairs l u, p ∈ l := by
  intro l
  induction l with
  | nil => intro u p hp; simp [greedySelectPairs] at hp
  | cons t rest ih =>
      intro u p hp
      obtain ⟨s1, s2, d⟩ := t
      rw [greedySelectPairs] at hp
      split at hp
      · rw [List.mem_cons] at hp
        rcases hp with hp | hp
        · exact hp ▸ List.mem_cons_self _ _
        · exact List.mem_cons_of_mem _ (ih _ p hp)
      · exact List.mem_cons_of_mem _ (ih _ p hp)

/-- No identity key of a pair the greedy scan returns is in the used set
it started from. -/
theorem greedySelectPairs_not_used :
    ∀ (l : List (Site × Site × ℚ)) (u : List SiteId),
      ∀ p ∈ greedySelectPairs l u,
        (u.any (fun k => k = siteId p.1)) = false ∧
        (u.any (fun k => k = siteId p.2.1)) = false := by
  intro l
  induction l with
  | nil => intro u p hp; simp [greedySelectPairs] at hp
  | cons t rest ih =>
      intro u p hp
      obtain ⟨s1, s2, d⟩ := t
      rw [greedySelectPairs] at hp
      split at hp
      · rename_i hcond
        rw [List.mem_cons] at hp
        rcases hp with hp | hp
        · subst hp
          exact ⟨bool_eq_false_of_ne hcond.1, bool_eq_false_of_ne hcond.2⟩
        · have h2 := ih _ p hp
          simp only [List.any_append, Bool.or_eq_false_iff] at h2
          exact ⟨h2.1.1, h2.2.1⟩
      · exact ih u p hp

/-- The pairs the greedy scan returns are pairwise disjoint in identity
keys. -/
theorem greedySelectPairs_pairwise :
    ∀ (l : List (Site × Site × ℚ)) (u : List SiteId),
      List.Pairwise (fun p q =>
        siteId p.1 ≠ siteId q.1 ∧ siteId p.1 ≠ siteId q.2.1 ∧
        siteId p.2.1 ≠ siteId q.1 ∧ siteId p.2.1 ≠ siteId q.2.1)
        (greedySelectPairs l u) := by
  intro l
  induction l with
  | nil => intro u; simp [greedySelectPairs]
  | cons t rest ih =>
      intro u
      obtain ⟨s1, s2, d⟩ := t
      rw [greedySelectPairs]
      split
      · refine List.Pairwise.cons ?_ (ih _)
        intro q hq
        have h2 := greedySelectPairs_not_used _ _ q hq
        simp only [List.any_append, List.any_cons, List.any_nil,
          Bool.or_eq_false_iff, decide_eq_false_iff_not] at h2
        exact ⟨h2.1.2.1, h2.2.2.1, h2.1.2.2.1, h2.2.2.2.1⟩
      · exact ih u

/-- C3.  Validity of the pairing method output: every returned triple
stores a distance at most the threshold, and no site identity key appears
in more than one returned pair. -/
theorem findAllPairs_valid (dist : DistFn) (sites : List Site) (maxD : ℚ) :
    (∀ p ∈ findAllPairs dist sites maxD, p.2.2 ≤ maxD) ∧
    List.Pairwise (fun p q =>
      siteId p.1 ≠ siteId q.1 ∧ siteId p.1 ≠ siteId q.2.1 ∧
      siteId p.2.1 ≠ siteId q.1 ∧ siteId p.2.1 ≠ siteId q.2.1)
      (findAllPairs dist sites maxD) := by
  constructor
  · intro p hp
    have h1 := greedySelectPairs_subset _ _ p hp
    have h2 := (List.mergeSort_perm (pairCandidatesAux dist maxD [] sites)
      distLe).mem_iff.mp h1
    exact pairCandidatesAux_le dist maxD sites [] p h2
  · exact greedySelectPairs_pairwise _ []

/-! ### Heap and removal lemmas -/

/-- Structural equality is reflexive. -/
theorem pyEqb_refl (a : Site) : pyEqb a a = true := by
  simp [pyEqb]

/-- Structural equality is equality of the eight declared fields. -/
theorem pyEqb_iff {a b : Site} : pyEqb a b = true ↔ siteCore a = siteCore b := by
  simp [pyEqb]

/-- The seven fields the scheduling method never writes. -/
def frameFields (a b : Site) : Prop :=
  a.site_name = b.site_name ∧ a.latitude = b.latitude ∧
  a.longitude = b.longitude ∧ a.city = b.city ∧
  a.easy_access = b.easy_access ∧ a.subcon = b.subcon ∧
  a.team_number = b.team_number

/-- Frame preservation is reflexive. -/
theorem frameFields_refl (a : Site) : frameFields a a :=
  ⟨rfl, rfl, rfl, rfl, rfl, rfl, rfl⟩

/-- Frame preservation composes. -/
theorem frameFields_trans {a b c : Site} (h1 : frameFields a b)
    (h2 : frameFields b c) : frameFields a c := by
  obtain ⟨e1, e2, e3, e4, e5, e6, e7⟩ := h1
  obtain ⟨f1, f2, f3, f4, f5, f6, f7⟩ := h2
  exact ⟨e1.trans f1, e2.trans f2, e3.trans f3, e4.trans f4, e5.trans f5,
    e6.trans f6, e7.trans f7⟩

/-- A date assignment does not change the heap length. -/
theorem assignDate_length (heap : List Site) (i : Nat) (ds : String) :
    (assignDate heap i ds).length = heap.length := by
  simp [assignDate]

/-- A date assignment leaves every other cell unchanged. -/
theorem heapGet_assignDate_ne (heap : List Site) {i j : Nat} (ds : String)
    (hne : j ≠ i) : heapGet (assignDate heap i ds) j = heapGet heap j := by
  unfold assignDate heapGet
  rw [List.getD_eq_getElem?_getD, List.getD_eq_getElem?_getD,
    List.getElem?_set_ne (fun e => hne e.symm)]
  rw [List.getD_eq_getElem?_getD]

/-- A date assignment writes the date into the target cell and keeps or
defaults its team index. -/
theorem heapGet_assignDate_self (heap : List Site) {i : Nat} (ds : String)
    (hi : i < heap.length) :
    heapGet (assignDate heap i ds) i =
      { heapGet heap i with
        date := ds
        team_index :=
          match (heapGet heap i).team_index with
          | none => some 0
          | t => t } := by
  unfold assignDate heapGet
  rw [List.getD_eq_getElem?_getD, List.getElem?_set_self (by simpa using hi)]
  rfl

/-- A date assignment preserves the seven frame fields of every cell. -/
theorem assignDate_frame (heap : List Site) (i : Nat) (ds : String) (j : Nat) :
    frameFields (heapGet (assignDate heap i ds) j) (heapGet heap j) := by
  by_cases hj : j = i
  · subst hj
    by_cases hi : j < heap.length
    · rw [heapGet_assignDate_self heap ds hi]
      exact ⟨rfl, rfl, rfl, rfl, rfl, rfl, rfl⟩
    · unfold assignDate heapGet
      rw [List.set_eq_of_length_le (by omega)]
      exact frameFields_refl _
  · rw [heapGet_assignDate_ne heap ds hj]
    exact frameFields_refl _

/-- The identity key of a cell is invariant under date assignment. -/
theorem siteId_assignDate (heap : List Site) (i : Nat) (ds : String) (j : Nat) :
    siteId (heapGet (assignDate heap i ds) j) = siteId (heapGet heap j) := by
  obtain ⟨e1, e2, e3, _⟩ := assignDate_frame heap i ds j
  unfold siteId
  rw [e1, e2, e3]

/-- The rendering of a date is never the empty string. -/
theorem fmtDate_ne_empty (d : Date) : fmtDate d ≠ "" := by
  intro h
  have := congrArg String.length h
  simp [fmtDate, String.length_append] at this
  exact absurd this.1.1.1.2 (by decide)

/-- A successful removal yields a sublist. -/
theorem removeFirstIdx_sublist {heap : List Site} {t : Site} :
    ∀ {l l2 : List Nat}, removeFirstIdx heap t l = some l2 → l2.Sublist l := by
  intro l
  induction l with
  | nil => intro l2 h; simp [removeFirstIdx] at h
  | cons j js ih =>
      intro l2 h
      rw [removeFirstIdx] at h
      split at h
      · simp only [Option.some.injEq] at h
        subst h
        exact List.sublist_cons_self j js
      · simp only [Option.map_eq_some'] at h
        obtain ⟨l3, h3, rfl⟩ := h
        exact (ih h3).cons₂ j

/-- A successful removal was of a matching element. -/
theorem removeFirstIdx_exists_match {heap : List Site} {t : Site} :
    ∀ {l l2 : List Nat}, removeFirstIdx heap t l = some l2 →
      ∃ x ∈ l, pyEqb (heapGet heap x) t = true := by
  intro l
  induction l with
  | nil => intro l2 h; simp [removeFirstIdx] at h
  | cons j js ih =>
      intro l2 h
      rw [removeFirstIdx] at h
      split at h
      · exact ⟨j, List.mem_cons_self j js, by assumption⟩
      · simp only [Option.map_eq_some'] at h
        obtain ⟨l3, h3, _⟩ := h
        obtain ⟨x, hx, hm⟩ := ih h3
        exact ⟨x, List.mem_cons_of_mem j hx, hm⟩

/-- Removal keeps every non-matching element. -/
theorem removeFirstIdx_mem_of_not_match {heap : List Site} {t : Site} :
    ∀ {l l2 : List Nat} {j : Nat}, removeFirstIdx heap t l = some l2 →
      j ∈ l → pyEqb (heapGet heap j) t = false → j ∈ l2 := by
  intro l
  induction l with
  | nil => intro l2 j h; simp [removeFirstIdx] at h
  | cons x xs ih =>
      intro l2 j h hj hne
      rw [removeFirstIdx] at h
      split at h
      · simp only [Option.some.injEq] at h
        subst h
        rcases List.mem_cons.mp hj with hj | hj
        · subst hj
          rename_i hm
          rw [hm] at hne
          exact absurd hne (by simp)
        · exact hj
      · simp only [Option.map_eq_some'] at h
        obtain ⟨l3, h3, rfl⟩ := h
        rcases List.mem_cons.mp hj with hj | hj
        · exact hj ▸ List.mem_cons_self _ _
        · exact List.mem_cons_of_mem _ (ih h3 hj hne)

/-- When the matching elements of a duplicate-free list are exactly one
index, removal removes exactly that index. -/
theorem removeFirstIdx_unique {heap : List Site} {t : Site} {x : Nat} :
    ∀ {l l2 : List Nat}, l.Nodup →
      (∀ j ∈ l, pyEqb (heapGet heap j) t = true → j = x) →
      removeFirstIdx heap t l = some l2 → l2 = l.erase x := by
  intro l
  induction l with
  | nil => intro l2 _ _ h; simp [removeFirstIdx] at h
  | cons j js ih =>
      intro l2 hnd huniq h
      rw [removeFirstIdx] at h
      split at h
      · rename_i hm
        have hx : j = x := huniq j (List.mem_cons_self j js) hm
        subst hx
        simp only [Option.some.injEq] at h
        subst h
        rw [List.erase_cons_head]
      · rename_i hm
        simp only [Option.map_eq_some'] at h
        obtain ⟨l3, h3, rfl⟩ := h
        have hjx : j ≠ x := by
          intro e
          subst e
          obtain ⟨y, hy, hym⟩ := removeFirstIdx_exists_match h3
          have := huniq y (List.mem_cons_of_mem j hy) hym
          subst this
          exact (List.nodup_cons.mp hnd).1 hy
        rw [List.erase_cons_tail (by simp [hjx])]
        rw [ih (List.nodup_cons.mp hnd).2
          (fun a ha hm2 => huniq a (List.mem_cons_of_mem j ha) hm2) h3]

/-- Structurally equal records carry the same date. -/
theorem pyEqb_date {a b : Site} (h : pyEqb a b = true) : a.date = b.date := by
  rw [pyEqb_iff] at h
  have := congrArg (fun t => t.2.2.2.2.2.2.2) h
  simpa [siteCore] using this

/-- Full description of the state after one successful iteration body:
the heap keeps its length; only the assigned references change, each
getting the formatted cursor date with its other fields intact; the new
pool is the old pool minus the assigned references; the new partner map is
a restriction of the old one.  Requires the pool invariants of the loop:
no duplicate references, references in range, pool members undated, and
every partner reference either still pooled or already dated. -/
theorem scheduleStep_state {dist : DistFn} {centers : List (String × ℚ × ℚ)}
    {city : String} {heap : List Site} {pool : List Nat}
    {paired : List SiteId} {pairMap : SiteId → Option (Nat × ℚ)}
    {cur : Date} {out}
    (hstep : scheduleStep dist centers city heap pool paired pairMap cur = .ok out)
    (hnodup : pool.Nodup)
    (hlt : ∀ j ∈ pool, j < heap.length)
    (hundated : ∀ j ∈ pool, (heapGet heap j).date = "")
    (hpartner : ∀ k i d2, pairMap k = some (i, d2) →
      i ∈ pool ∨ (heapGet heap i).date ≠ "") :
    out.2.1.length = heap.length ∧
    (∀ j, j ∉ out.1.assigned → heapGet out.2.1 j = heapGet heap j) ∧
    (∀ j ∈ out.1.assigned,
      frameFields (heapGet out.2.1 j) (heapGet heap j) ∧
      (heapGet out.2.1 j).date = fmtDate cur ∧ j ∈ pool) ∧
    (∀ j, j ∈ out.2.2.1 ↔ j ∈ pool ∧ j ∉ out.1.assigned) ∧
    out.2.2.1.Nodup ∧
    pool.length = out.2.2.1.length + out.1.assigned.length ∧
    (∀ k i d2, out.2.2.2.2 k = some (i, d2) → pairMap k = some (i, d2)) := by
  obtain ⟨nearest, tl, hs, hc⟩ := scheduleStep_ok_inv hstep
  have hperm : (nearest :: tl).Perm pool := by
    rw [← hs]
    exact List.mergeSort_perm pool _
  have hsort_nodup : (nearest :: tl).Nodup := hperm.nodup_iff.mpr hnodup
  have hmem_sorted : ∀ j, j ∈ nearest :: tl ↔ j ∈ pool :=
    fun j => hperm.mem_iff
  have hnearest_pool : nearest ∈ pool :=
    (hmem_sorted nearest).mp (List.mem_cons_self _ _)
  have hnearest_tl : nearest ∉ tl := (List.nodup_cons.mp hsort_nodup).1
  have htl_nodup : tl.Nodup := (List.nodup_cons.mp hsort_nodup).2
  have hlen_sorted : tl.length + 1 = pool.length := by
    have := hperm.length_eq
    simpa using this
  have htl_mem : ∀ j ∈ tl, j ∈ pool :=
    fun j hj => (hmem_sorted j).mp (List.mem_cons_of_mem _ hj)
  have hnearest_lt : nearest < heap.length := hlt nearest hnearest_pool
  rcases hc with ⟨pr, pool1, pool2, hpr, hany, hhas, h1, h2, hout⟩ |
    ⟨pr, pool1, hpr, hany, hhas, h1, hout⟩ | ⟨pool1, hcond, h1, hout⟩
  · -- pair arm
    subst hout
    -- the partner is still pooled
    have hp_pool : pr.1 ∈ pool := by
      rcases hpartner _ _ _ hpr with h | hdated
      · exact h
      · exfalso
        unfold poolHas at hhas
        rw [List.any_eq_true] at hhas
        obtain ⟨j0, hj0, hm0⟩ := hhas
        have hj0p : j0 ∈ pool := (hmem_sorted j0).mp hj0
        have := pyEqb_date hm0
        rw [hundated j0 hj0p] at this
        exact hdated this.symm
    have hp_lt : pr.1 < heap.length := hlt _ hp_pool
    -- the first removal removes the head
    have hpool1 : pool1 = tl := by
      rw [removeFirstIdx, if_pos (pyEqb_refl _)] at h1
      simpa using h1.symm
    rw [hpool1] at h2
    -- dates in the doubly-assigned heap
    have hd_near :
        (heapGet (pairHeap heap nearest pr.1 cur) nearest).date = fmtDate cur ∧
        frameFields (heapGet (pairHeap heap nearest pr.1 cur) nearest)
          (heapGet heap nearest) := by
      constructor
      · unfold pairHeap
        by_cases hpn : nearest = pr.1
        · rw [← hpn,
            heapGet_assignDate_self _ _ (by rw [assignDate_length]; exact hnearest_lt)]
        · rw [heapGet_assignDate_ne _ _ hpn,
            heapGet_assignDate_self _ _ hnearest_lt]
      · exact frameFields_trans (assignDate_frame _ _ _ _) (assignDate_frame _ _ _ _)
    have hd_p :
        (heapGet (pairHeap heap nearest pr.1 cur) pr.1).date = fmtDate cur ∧
        frameFields (heapGet (pairHeap heap nearest pr.1 cur) pr.1)
          (heapGet heap pr.1) := by
      constructor
      · unfold pairHeap
        rw [heapGet_assignDate_self _ _ (by rw [assignDate_length]; exact hp_lt)]
      · exact frameFields_trans (assignDate_frame _ _ _ _) (assignDate_frame _ _ _ _)
    have hframe_out : ∀ j, j ≠ nearest → j ≠ pr.1 →
        heapGet (pairHeap heap nearest pr.1 cur) j = heapGet heap j := by
      intro j hj1 hj2
      unfold pairHeap
      rw [heapGet_assignDate_ne _ _ hj2, heapGet_assignDate_ne _ _ hj1]
    -- the only match of the second removal is the partner
    have hmatch_char : ∀ j ∈ tl,
        pyEqb (heapGet (pairHeap heap nearest pr.1 cur) j)
          (heapGet (pairHeap heap nearest pr.1 cur) pr.1) = true → j = pr.1 := by
      intro j hj hm
      by_contra hne
      have hjn : j ≠ nearest := fun e => hnearest_tl (e ▸ hj)
      have hje : heapGet (pairHeap heap nearest pr.1 cur) j = heapGet heap j :=
        hframe_out j hjn hne
      have hdd := pyEqb_date hm
      rw [hje, hundated j (htl_mem j hj), hd_p.1] at hdd
      exact fmtDate_ne_empty cur hdd.symm
    have hp_tl : pr.1 ∈ tl := by
      obtain ⟨x, hx, hxm⟩ := removeFirstIdx_exists_match h2
      have := hmatch_char x hx hxm
      exact this ▸ hx
    have hpn : pr.1 ≠ nearest := fun e => hnearest_tl (e ▸ hp_tl)
    have hpool2 : pool2 = tl.erase pr.1 :=
      removeFirstIdx_unique htl_nodup hmatch_char h2
    subst hpool2
    refine ⟨?_, ?_, ?_, ?_, ?_, ?_, ?_⟩
    · unfold pairHeap
      rw [assignDate_length, assignDate_length]
    · intro j hj
      simp only [List.mem_cons, List.not_mem_nil, or_false, not_or] at hj
      exact hframe_out j hj.1 hj.2
    · intro j hj
      simp only [List.mem_cons, List.not_mem_nil, or_false] at hj
      rcases hj with hj | hj <;> subst hj
      · exact ⟨hd_near.2, hd_near.1, hnearest_pool⟩
      · exact ⟨hd_p.2, hd_p.1, hp_pool⟩
    · intro j
      rw [List.Nodup.mem_erase_iff htl_nodup]
      constructor
      · rintro ⟨hjp, hjtl⟩
        refine ⟨htl_mem j hjtl, ?_⟩
        simp only [List.mem_cons, List.not_mem_nil, or_false, not_or]
        exact ⟨fun e => hnearest_tl (e ▸ hjtl), hjp⟩
      · rintro ⟨hjp, hjna⟩
        simp only [List.mem_cons, List.not_mem_nil, or_false, not_or] at hjna
        refine ⟨hjna.2, ?_⟩
        rcases List.mem_cons.mp ((hmem_sorted j).mpr hjp) with hj | hj
        · exact absurd hj hjna.1
        · exact hj
    · exact htl_nodup.erase _
    · have e1 := List.length_erase_of_mem hp_tl
      have e2 : 1 ≤ tl.length := List.length_pos_of_mem hp_tl
      simp only [List.length_cons, List.length_nil]
      omega
    · intro k i d2 hk
      dsimp only at hk
      split at hk
      · exact absurd hk (by simp)
      · exact hk
  · -- fallback arm
    subst hout
    have hpool1 : pool1 = tl := by
      rw [removeFirstIdx, if_pos (pyEqb_refl _)] at h1
      simpa using h1.symm
    subst hpool1
    refine ⟨by unfold singleHeap; rw [assignDate_length], ?_, ?_, ?_, ?_, ?_, ?_⟩
    · intro j hj
      simp only [List.mem_cons, List.not_mem_nil, or_false] at hj
      unfold singleHeap
      exact heapGet_assignDate_ne _ _ hj
    · intro j hj
      simp only [List.mem_cons, List.not_mem_nil, or_false] at hj
      subst hj
      refine ⟨by unfold singleHeap; exact assignDate_frame _ _ _ _, ?_, hnearest_pool⟩
      unfold singleHeap
      rw [heapGet_assignDate_self _ _ hnearest_lt]
    · intro j
      constructor
      · intro hjtl
        refine ⟨htl_mem j hjtl, ?_⟩
        simp only [List.mem_cons, List.not_mem_nil, or_false]
        exact fun e => hnearest_tl (e ▸ hjtl)
      · rintro ⟨hjp, hjna⟩
        simp only [List.mem_cons, List.not_mem_nil, or_false] at hjna
        rcases List.mem_cons.mp ((hmem_sorted j).mpr hjp) with hj | hj
        · exact absurd hj hjna
        · exact hj
    · exact htl_nodup
    · simp only [List.length_cons, List.length_nil]
      omega
    · intro k i d2 hk
      dsimp only at hk
      split at hk
      · exact absurd hk (by simp)
      · exact hk
  · -- single arm
    subst hout
    have hpool1 : pool1 = tl := by
      rw [removeFirstIdx, if_pos (pyEqb_refl _)] at h1
      simpa using h1.symm
    subst hpool1
    refine ⟨by unfold singleHeap; rw [assignDate_length], ?_, ?_, ?_, ?_, ?_, ?_⟩
    · intro j hj
      simp only [List.mem_cons, List.not_mem_nil, or_false] at hj
      unfold singleHeap
      exact heapGet_assignDate_ne _ _ hj
    · intro j hj
      simp only [List.mem_cons, List.not_mem_nil, or_false] at hj
      subst hj
      refine ⟨by unfold singleHeap; exact assignDate_frame _ _ _ _, ?_, hnearest_pool⟩
      unfold singleHeap
      rw [heapGet_assignDate_self _ _ hnearest_lt]
    · intro j
      constructor
      · intro hjtl
        refine ⟨htl_mem j hjtl, ?_⟩
        simp only [List.mem_cons, List.not_mem_nil, or_false]
        exact fun e => hnearest_tl (e ▸ hjtl)
      · rintro ⟨hjp, hjna⟩
        simp only [List.mem_cons, List.not_mem_nil, or_false] at hjna
        rcases List.mem_cons.mp ((hmem_sorted j).mpr hjp) with hj | hj
        · exact absurd hj hjna
        · exact hj
    · exact htl_nodup
    · simp only [List.length_cons, List.length_nil]
      omega
    · intro k i d2 hk
      exact hk

/-- Master description of a successful group loop run: the heap keeps its
length; references outside the entry pool are untouched; every pooled
reference keeps its seven frame fields and is assigned the date of exactly
the iteration that consumed it; every logged assignment is of pooled
references; and the pool size is the total number of logged assignments. -/
theorem scheduleLoop_master (dist : DistFn) (centers : List (String × ℚ × ℚ))
    (city : String) (heap : List Site) (pool : List Nat)
    (paired : List SiteId) (pairMap : SiteId → Option (Nat × ℚ))
    (cur : Date) :
    ∀ heapF : List Site,
      pool.Nodup →
      (∀ j ∈ pool, j < heap.length) →
      (∀ j ∈ pool, (heapGet heap j).date = "") →
      (∀ k i d2, pairMap k = some (i, d2) →
        i ∈ pool ∨ (heapGet heap i).date ≠ "") →
      (scheduleLoop dist centers city heap pool paired pairMap cur).2 = .ok heapF →
      heapF.length = heap.length ∧
      (∀ j, j ∉ pool → heapGet heapF j = heapGet heap j) ∧
      (∀ j ∈ pool, frameFields (heapGet heapF j) (heapGet heap j) ∧
        ∃ log ∈ (scheduleLoop dist centers city heap pool paired pairMap cur).1,
          j ∈ log.assigned ∧ (heapGet heapF j).date = fmtDate log.date) ∧
      (∀ log ∈ (scheduleLoop dist centers city heap pool paired pairMap cur).1,
        ∀ j ∈ log.assigned, j ∈ pool ∧
          (heapGet heapF j).date = fmtDate log.date) ∧
      pool.length =
        (((scheduleLoop dist centers city heap pool paired pairMap cur).1).map
          (fun log => log.assigned.length)).sum := by
  induction heap, pool, paired, pairMap, cur using scheduleLoop.induct dist centers city with
  | case1 heap paired pairMap cur =>
      intro heapF _ _ _ _ hok
      rw [scheduleLoop_nil] at hok ⊢
      simp only [Except.ok.injEq] at hok
      subst hok
      refine ⟨rfl, fun j _ => rfl, ?_, ?_, rfl⟩
      · intro j hj; exact absurd hj (List.not_mem_nil j)
      · intro log hlog; exact absurd hlog (List.not_mem_nil log)
  | case2 heap pool paired pairMap cur hpool e hstep =>
      intro heapF _ _ _ _ hok
      rw [scheduleLoop_step_err hpool hstep] at hok
      exact absurd hok (by simp)
  | case3 heap pool paired pairMap cur hpool log heap2 pool2 paired2 pm2 hstep e hadv =>
      intro heapF _ _ _ _ hok
      rw [scheduleLoop_adv_err hpool hstep hadv] at hok
      exact absurd hok (by simp)
  | case4 heap pool paired pairMap cur hpool log heap2 pool2 paired2 pm2 hstep cur2 hadv ih =>
      intro heapF hnodup hlt hundated hpartner hok
      rw [scheduleLoop_cons hpool hstep hadv] at hok ⊢
      dsimp only at hok ⊢
      have S := scheduleStep_state hstep hnodup hlt hundated hpartner
      dsimp only at S
      obtain ⟨S1, S2, S3, S4, S5, S6, S7⟩ := S
      have hlog_date : log.date = cur := (scheduleStep_out_log hstep).1
      have lt2 : ∀ j ∈ pool2, j < heap2.length := by
        intro j hj
        rw [S1]
        exact hlt j ((S4 j).mp hj).1
      have undated2 : ∀ j ∈ pool2, (heapGet heap2 j).date = "" := by
        intro j hj
        rw [S2 j ((S4 j).mp hj).2]
        exact hundated j ((S4 j).mp hj).1
      have partner2 : ∀ k i d2, pm2 k = some (i, d2) →
          i ∈ pool2 ∨ (heapGet heap2 i).date ≠ "" := by
        intro k i d2 hk
        by_cases hia : i ∈ log.assigned
        · right
          rw [(S3 i hia).2.1]
          exact fmtDate_ne_empty cur
        · rcases hpartner k i d2 (S7 k i d2 hk) with hip | hid
          · left
            exact (S4 i).mpr ⟨hip, hia⟩
          · right
            rw [S2 i hia]
            exact hid
      obtain ⟨I1, I2, I3, I4, I5⟩ := ih heapF S5 lt2 undated2 partner2 hok
      have hassigned_sub : ∀ j ∈ log.assigned, j ∈ pool :=
        fun j hj => (S3 j hj).2.2
      have hassigned_final : ∀ j ∈ log.assigned,
          heapGet heapF j = heapGet heap2 j := by
        intro j hj
        exact I2 j (fun hj2 => ((S4 j).mp hj2).2 hj)
      refine ⟨I1.trans S1, ?_, ?_, ?_, ?_⟩
      · intro j hj
        have hj2 : j ∉ pool2 := fun h2 => hj ((S4 j).mp h2).1
        have hja : j ∉ log.assigned := fun ha => hj (hassigned_sub j ha)
        rw [I2 j hj2, S2 j hja]
      · intro j hj
        by_cases hja : j ∈ log.assigned
        · have hjp2 : j ∉ pool2 := fun h2 => ((S4 j).mp h2).2 hja
          have he : heapGet heapF j = heapGet heap2 j := I2 j hjp2
          constructor
          · rw [he]
            exact (S3 j hja).1
          · exact ⟨log, List.mem_cons_self _ _, hja, by
              rw [he, (S3 j hja).2.1, hlog_date]⟩
        · have hjp2 : j ∈ pool2 := (S4 j).mpr ⟨hj, hja⟩
          obtain ⟨hf, log2, hlog2, hjl2, hdate2⟩ := I3 j hjp2
          constructor
          · rw [show heapGet heap2 j = heapGet heap j from S2 j hja] at hf
            exact hf
          · exact ⟨log2, List.mem_cons_of_mem _ hlog2, hjl2, hdate2⟩
      · intro log2 hlog2 j hj
        rcases List.mem_cons.mp hlog2 with h | h
        · subst h
          refine ⟨hassigned_sub j hj, ?_⟩
          rw [hassigned_final j hj, (S3 j hj).2.1, hlog_date]
        · obtain ⟨hjp2, hd⟩ := I4 log2 h j hj
          exact ⟨((S4 j).mp hjp2).1, hd⟩
      · simp only [List.map_cons, List.sum_cons]
        omega

/-- Candidates generated on indices come from the index pool. -/
theorem pairCandidatesIdxAux_mem {dist : DistFn} {heap : List Site} {maxD : ℚ} :
    ∀ {idxs : List Nat} {used : List SiteId} {t : Nat × Nat × ℚ},
      t ∈ pairCandidatesIdxAux dist heap maxD used idxs →
      t.1 ∈ idxs ∧ t.2.1 ∈ idxs := by
  intro idxs
  induction idxs with
  | nil => intro used t ht; simp [pairCandidatesIdxAux] at ht
  | cons i rest ih =>
      intro used t ht
      rw [pairCandidatesIdxAux] at ht
      split at ht
      · have := ih ht
        exact ⟨List.mem_cons_of_mem _ this.1, List.mem_cons_of_mem _ this.2⟩
      · rw [List.mem_append] at ht
        rcases ht with ht | ht
        · rw [List.mem_filterMap] at ht
          obtain ⟨j, hj, hf⟩ := ht
          split at hf
          · exact absurd hf (by simp)
          · dsimp only at hf
            split at hf
            · simp only [Option.some.injEq] at hf
              rw [← hf]
              exact ⟨List.mem_cons_self _ _, List.mem_cons_of_mem _ hj⟩
            · exact absurd hf (by simp)
        · have := ih ht
          exact ⟨List.mem_cons_of_mem _ this.1, List.mem_cons_of_mem _ this.2⟩

/-- The greedy scan on indices only returns candidates it was given. -/
theorem greedySelectIdx_subset {heap : List Site} :
    ∀ (l : List (Nat × Nat × ℚ)) (u : List SiteId),
      ∀ t ∈ greedySelectIdx heap l u, t ∈ l := by
  intro l
  induction l with
  | nil => intro u t ht; simp [greedySelectIdx] at ht
  | cons p rest ih =>
      intro u t ht
      obtain ⟨i, j, d⟩ := p
      rw [greedySelectIdx] at ht
      split at ht
      · rcases List.mem_cons.mp ht with ht | ht
        · exact ht ▸ List.mem_cons_self _ _
        · exact List.mem_cons_of_mem _ (ih _ t ht)
      · exact List.mem_cons_of_mem _ (ih u t ht)

/-- Every pair the pairing method selects joins two references of the
pool it was given. -/
theorem findAllPairsIdx_mem {dist : DistFn} {heap : List Site}
    {idxs : List Nat} {maxD : ℚ} {t : Nat × Nat × ℚ}
    (ht : t ∈ findAllPairsIdx dist heap idxs maxD) :
    t.1 ∈ idxs ∧ t.2.1 ∈ idxs := by
  unfold findAllPairsIdx at ht
  have h1 := greedySelectIdx_subset _ _ t ht
  have h2 := (List.mergeSort_perm (pairCandidatesIdxAux dist heap maxD [] idxs)
    distLe).mem_iff.mp h1
  exact pairCandidatesIdxAux_mem h2

/-- The bookkeeping fold preserves any predicate on map values that the
recorded pairs satisfy. -/
theorem buildPairState_fold_inv {heap : List Site} (Q : Nat → Prop) :
    ∀ (pairs : List (Nat × Nat × ℚ))
      (st : List SiteId × (SiteId → Option (Nat × ℚ))),
      (∀ k i d2, st.2 k = some (i, d2) → Q i) →
      (∀ t ∈ pairs, Q t.1 ∧ Q t.2.1) →
      ∀ k i d2,
        (pairs.foldl
          (fun (st : List SiteId × (SiteId → Option (Nat × ℚ)))
              (t : Nat × Nat × ℚ) =>
            (st.1 ++ [siteId (heapGet heap t.1), siteId (heapGet heap t.2.1)],
              fun k =>
                if k = siteId (heapGet heap t.2.1) then some (t.1, t.2.2)
                else if k = siteId (heapGet heap t.1) then some (t.2.1, t.2.2)
                else st.2 k)) st).2 k = some (i, d2) → Q i := by
  intro pairs
  induction pairs with
  | nil => intro st hst _ k i d2 hk; exact hst k i d2 hk
  | cons p rest ih =>
      intro st hst hall k i d2 hk
      rw [List.foldl_cons] at hk
      refine ih _ ?_ (fun t ht => hall t (List.mem_cons_of_mem _ ht)) k i d2 hk
      intro k2 i2 d3 hk2
      dsimp only at hk2
      split at hk2
      · simp only [Option.some.injEq, Prod.mk.injEq] at hk2
        rw [← hk2.1]
        exact (hall p (List.mem_cons_self _ _)).1
      · split at hk2
        · simp only [Option.some.injEq, Prod.mk.injEq] at hk2
          rw [← hk2.1]
          exact (hall p (List.mem_cons_self _ _)).2
        · exact hst k2 i2 d3 hk2

/-- Every value of the pair bookkeeping map points at a reference of one
of the recorded pairs. -/
theorem buildPairState_values {heap : List Site}
    {pairs : List (Nat × Nat × ℚ)} {k : SiteId} {i : Nat} {d2 : ℚ}
    (hk : (buildPairState heap pairs).2 k = some (i, d2)) :
    ∃ t ∈ pairs, i = t.1 ∨ i = t.2.1 := by
  unfold buildPairState at hk
  exact buildPairState_fold_inv (fun i => ∃ t ∈ pairs, i = t.1 ∨ i = t.2.1)
    pairs ([], fun _ => none) (fun k i d2 hk2 => by simp at hk2)
    (fun t ht => ⟨⟨t, ht, Or.inl rfl⟩, ⟨t, ht, Or.inr rfl⟩⟩) k i d2 hk

/-- Description of a successful group run: the heap keeps its length,
references outside the group are untouched, without-date members are
dated with all other fields intact, and already-dated members are left
exactly as they were. -/
theorem scheduleGroup_master {dist : DistFn} {centers : List (String × ℚ × ℚ)}
    {city : String} {heap : List Site} {members : List Nat} {start : Date}
    {heapF : List Site}
    (hnodup : members.Nodup)
    (hlt : ∀ j ∈ members, j < heap.length)
    (hok : (scheduleGroup dist centers city heap members start).2 = .ok heapF) :
    heapF.length = heap.length ∧
    (∀ j, j ∉ members → heapGet heapF j = heapGet heap j) ∧
    (∀ j ∈ members,
      frameFields (heapGet heapF j) (heapGet heap j) ∧
      ((heapGet heap j).date ≠ "" → heapGet heapF j = heapGet heap j) ∧
      (heapGet heapF j).date ≠ "") := by
  unfold scheduleGroup at hok
  split at hok
  case isTrue hempty =>
    simp only [Except.ok.injEq] at hok
    subst hok
    refine ⟨rfl, fun j _ => rfl, ?_⟩
    intro j hj
    have hdated : (heapGet heap j).date ≠ "" := by
      intro hd
      have hmem : j ∈ groupUnassigned heap members := by
        unfold groupUnassigned
        rw [List.mem_filter]
        exact ⟨hj, by simp [hd]⟩
      rw [hempty] at hmem
      exact absurd hmem (List.not_mem_nil j)
    exact ⟨frameFields_refl _, fun _ => rfl, hdated⟩
  case isFalse =>
    have hpool_nodup : (groupUnassigned heap members).Nodup := hnodup.filter _
    have hpool_sub : ∀ j ∈ groupUnassigned heap members, j ∈ members :=
      fun j hj => (List.mem_filter.mp hj).1
    have hpool_lt : ∀ j ∈ groupUnassigned heap members, j < heap.length :=
      fun j hj => hlt j (hpool_sub j hj)
    have hpool_undated : ∀ j ∈ groupUnassigned heap members,
        (heapGet heap j).date = "" := by
      intro j hj
      have := (List.mem_filter.mp hj).2
      simpa using this
    have hpartner : ∀ k i d2,
        (buildPairState heap
          (findAllPairsIdx dist heap (groupUnassigned heap members) 5)).2 k =
          some (i, d2) →
        i ∈ groupUnassigned heap members ∨ (heapGet heap i).date ≠ "" := by
      intro k i d2 hk
      obtain ⟨t, ht, hti⟩ := buildPairState_values hk
      have hmem := findAllPairsIdx_mem ht
      rcases hti with h | h
      · exact Or.inl (h ▸ hmem.1)
      · exact Or.inl (h ▸ hmem.2)
    obtain ⟨M1, M2, M3, _, _⟩ := scheduleLoop_master dist centers city heap
      (groupUnassigned heap members) _ _ start heapF
      hpool_nodup hpool_lt hpool_undated hpartner hok
    refine ⟨M1, ?_, ?_⟩
    · intro j hj
      exact M2 j (fun hjp => hj (hpool_sub j hjp))
    · intro j hj
      by_cases hjp : j ∈ groupUnassigned heap members
      · obtain ⟨hframe, log, _, _, hdate⟩ := M3 j hjp
        refine ⟨hframe, fun hd => absurd (hpool_undated j hjp) hd, ?_⟩
        rw [hdate]
        exact fmtDate_ne_empty _
      · have he : heapGet heapF j = heapGet heap j := M2 j hjp
        have hdated : (heapGet heap j).date ≠ "" := by
          intro hd
          exact hjp (by
            unfold groupUnassigned
            rw [List.mem_filter]
            exact ⟨hj, by simp [hd]⟩)
        exact ⟨he ▸ frameFields_refl _, fun _ => he, by rw [he]; exact hdated⟩

/-- All indices stored at the subcontractor level. -/
def subconIndices (l : List (String × List Nat)) : List Nat :=
  l.flatMap (·.2)

/-- All indices stored in the nested grouping. -/
def nestedIndices (nested : List (String × List (String × List Nat))) :
    List Nat :=
  nested.flatMap (fun c => subconIndices c.2)

/-- Inserting an index at the subcontractor level adds exactly it. -/
theorem subconIndices_insert (l : List (String × List Nat)) (sub : String)
    (i : Nat) :
    (subconIndices (insertSubcon l sub i)).Perm (subconIndices l ++ [i]) := by
  induction l with
  | nil => simp [insertSubcon, subconIndices]
  | cons b rest ih =>
      rw [insertSubcon]
      split
      · unfold subconIndices
        simp only [List.flatMap_cons]
        rw [List.append_assoc, List.append_assoc]
        exact List.perm_append_comm.append_left b.2
      · unfold subconIndices
        simp only [List.flatMap_cons]
        rw [List.append_assoc]
        exact ih.append_left b.2

/-- Inserting an index at the city level adds exactly it. -/
theorem nestedIndices_insert
    (nested : List (String × List (String × List Nat))) (city sub : String)
    (i : Nat) :
    (nestedIndices (insertCity nested city sub i)).Perm
      (nestedIndices nested ++ [i]) := by
  induction nested with
  | nil => simp [insertCity, nestedIndices, subconIndices, insertSubcon]
  | cons b rest ih =>
      rw [insertCity]
      split
      · unfold nestedIndices
        simp only [List.flatMap_cons]
        refine ((subconIndices_insert b.2 sub i).append_right _).trans ?_
        rw [List.append_assoc, List.append_assoc]
        exact List.perm_append_comm.append_left (subconIndices b.2)
      · unfold nestedIndices
        simp only [List.flatMap_cons]
        rw [List.append_assoc]
        exact ih.append_left (subconIndices b.2)

/-- The construction-time grouping stores exactly the input indices. -/
theorem buildNested_indices (sites : List Site) :
    (nestedIndices (buildNested sites)).Perm (List.range sites.length) := by
  have main : ∀ (l : List Site) (n : Nat)
      (acc : List (String × List (String × List Nat))),
      (nestedIndices ((List.enumFrom n l).foldl
        (fun acc p => insertCity acc p.2.city p.2.subcon p.1) acc)).Perm
        (nestedIndices acc ++ List.range' n l.length) := by
    intro l
    induction l with
    | nil => intro n acc; simp [List.enumFrom]
    | cons s rest ih =>
        intro n acc
        rw [List.enumFrom, List.foldl_cons]
        refine (ih (n + 1) _).trans ?_
        rw [List.length_cons, List.range'_succ]
        refine ((nestedIndices_insert acc s.city s.subcon n).append_right _).trans ?_
        rw [List.append_assoc]
        rfl
  have h := main sites 0 []
  unfold buildNested
  rw [List.range_eq_range']
  exact h.trans (by rw [show nestedIndices [] = [] from rfl, List.nil_append])

/-- The member indices of the flattened groups are the indices of the
nested grouping. -/
theorem flattenGroups_indices
    (nested : List (String × List (String × List Nat))) :
    (flattenGroups nested).flatMap (fun g => g.2.2) = nestedIndices nested := by
  unfold flattenGroups nestedIndices
  rw [List.flatMap_assoc]
  congr 1
  funext c
  rw [List.flatMap_map]
  rfl

/-- Description of a successful run over a list of groups whose member
lists are disjoint and in range: length preserved, untouched outside the
groups, and the per-group guarantees hold against the entry heap. -/
theorem scheduleGroupsFold_master (dist : DistFn)
    (centers : List (String × ℚ × ℚ)) (start : Date) :
    ∀ (gs : List (String × String × List Nat)) (heap heapF : List Site),
      (gs.flatMap (fun g => g.2.2)).Nodup →
      (∀ g ∈ gs, ∀ j ∈ g.2.2, j < heap.length) →
      scheduleGroupsFold dist centers start gs heap = .ok heapF →
      heapF.length = heap.length ∧
      (∀ j, (∀ g ∈ gs, j ∉ g.2.2) → heapGet heapF j = heapGet heap j) ∧
      (∀ g ∈ gs, ∀ j ∈ g.2.2,
        frameFields (heapGet heapF j) (heapGet heap j) ∧
        ((heapGet heap j).date ≠ "" → heapGet heapF j = heapGet heap j) ∧
        (heapGet heapF j).date ≠ "") := by
  intro gs
  induction gs with
  | nil =>
      intro heap heapF _ _ hok
      rw [scheduleGroupsFold] at hok
      simp only [Except.ok.injEq] at hok
      subst hok
      exact ⟨rfl, fun j _ => rfl, fun g hg => absurd hg (List.not_mem_nil g)⟩
  | cons g gs ih =>
      intro heap heapF hnd hlt hok
      rw [scheduleGroupsFold] at hok
      simp only [List.flatMap_cons, List.nodup_append] at hnd
      obtain ⟨ndg, ndgs, disj⟩ := hnd
      revert hok
      split
      · intro hok; exact absurd hok (by simp)
      case _ heap2 hg =>
        intro hok
        obtain ⟨G1, G2, G3⟩ := scheduleGroup_master ndg
          (hlt g (List.mem_cons_self _ _)) hg
        have hlt2 : ∀ g2 ∈ gs, ∀ j ∈ g2.2.2, j < heap2.length := by
          intro g2 hg2 j hj
          rw [G1]
          exact hlt g2 (List.mem_cons_of_mem _ hg2) j hj
        obtain ⟨I1, I2, I3⟩ := ih heap2 heapF ndgs hlt2 hok
        have hdisj : ∀ j ∈ g.2.2, ∀ g2 ∈ gs, j ∉ g2.2.2 := by
          intro j hj g2 hg2 hj2
          exact disj hj (List.mem_flatMap.mpr ⟨g2, hg2, hj2⟩)
        refine ⟨I1.trans G1, ?_, ?_⟩
        · intro j hj
          rw [I2 j (fun g2 hg2 => hj g2 (List.mem_cons_of_mem _ hg2)),
            G2 j (hj g (List.mem_cons_self _ _))]
        · intro g2 hg2 j hj
          rcases List.mem_cons.mp hg2 with h | h
          · subst h
            have hout : heapGet heapF j = heapGet heap2 j :=
              I2 j (hdisj j hj)
            obtain ⟨Gf, Gk, Gd⟩ := G3 j hj
            refine ⟨hout ▸ Gf, ?_, hout ▸ Gd⟩
            intro hdate
            rw [hout, Gk hdate]
          · have hjg : j ∉ g.2.2 := by
              intro hjg
              exact hdisj j hjg g2 h hj
            have hout : heapGet heap2 j = heapGet heap j := G2 j hjg
            obtain ⟨If, Ik, Id⟩ := I3 g2 h j hj
            refine ⟨hout ▸ If, ?_, Id⟩
            intro hdate
            rw [Ik (by rw [hout]; exact hdate), hout]

/-- Inversion of a successful construction: the scheduler's fields are
built from the input sites. -/
theorem mkSiteScheduler_ok_inv {sites : List Site} {sd : Option String}
    {m : Option ℚ} {today : Date} {sch : SiteScheduler}
    (h : mkSiteScheduler sites sd m today = .ok sch) :
    sch.sites = sites ∧ sch.groups = flattenGroups (buildNested sites) ∧
    sch.city_centers = cityCenters sites (buildNested sites) ∧
    sch.max_pair_distance = m.getD DEFAULT_MAX_PAIR_DISTANCE := by
  unfold mkSiteScheduler at h
  cases hp : parseStartDate sd today with
  | error e =>
      rw [hp] at h
      exact absurd h (by simp [Except.map])
  | ok cd =>
      rw [hp] at h
      simp only [Except.map, Except.ok.injEq] at h
      subst h
      exact ⟨rfl, rfl, rfl, rfl⟩

/-- C4.  After a successful schedule run on a constructed scheduler,
every site carries a non-empty date; a site whose date was non-empty
before the call is exactly its prior record; and no field other than the
date and the team index changes on any site. -/
theorem schedule_completion_and_frame (dist : DistFn) (sites : List Site)
    (sd : Option String) (m : Option ℚ) (today : Date)
    (sch : SiteScheduler) (heapF : List Site)
    (hmk : mkSiteScheduler sites sd m today = .ok sch)
    (hrun : schedule dist sch = .ok heapF) :
    heapF.length = sites.length ∧
    (∀ j, j < sites.length → (heapGet heapF j).date ≠ "") ∧
    (∀ j, (heapGet sites j).date ≠ "" → heapGet heapF j = heapGet sites j) ∧
    (∀ j, frameFields (heapGet heapF j) (heapGet sites j)) := by
  obtain ⟨hs, hg, _, _⟩ := mkSiteScheduler_ok_inv hmk
  rw [schedule, hs, hg] at hrun
  have hperm : ((flattenGroups (buildNested sites)).flatMap
      (fun g => g.2.2)).Perm (List.range sites.length) := by
    rw [flattenGroups_indices]
    exact buildNested_indices sites
  have hmemiff : ∀ j, (∃ g ∈ flattenGroups (buildNested sites), j ∈ g.2.2) ↔
      j < sites.length := by
    intro j
    rw [← List.mem_flatMap, hperm.mem_iff, List.mem_range]
  have hnd : ((flattenGroups (buildNested sites)).flatMap
      (fun g => g.2.2)).Nodup :=
    hperm.nodup_iff.mpr (List.nodup_range _)
  have hlt : ∀ g ∈ flattenGroups (buildNested sites), ∀ j ∈ g.2.2,
      j < sites.length := by
    intro g hg2 j hj
    exact (hmemiff j).mp ⟨g, hg2, hj⟩
  obtain ⟨F1, F2, F3⟩ := scheduleGroupsFold_master dist _ _ _ sites heapF
    hnd hlt hrun
  refine ⟨F1, ?_, ?_, ?_⟩
  · intro j hj
    obtain ⟨g, hg2, hjg⟩ := (hmemiff j).mpr hj
    exact (F3 g hg2 j hjg).2.2
  · intro j hdate
    by_cases hj : ∃ g ∈ flattenGroups (buildNested sites), j ∈ g.2.2
    · obtain ⟨g, hg2, hjg⟩ := hj
      exact (F3 g hg2 j hjg).2.1 hdate
    · exact F2 j (fun g hg2 hjg => hj ⟨g, hg2, hjg⟩)
  · intro j
    by_cases hj : ∃ g ∈ flattenGroups (buildNested sites), j ∈ g.2.2
    · obtain ⟨g, hg2, hjg⟩ := hj
      exact (F3 g hg2 j hjg).1
    · rw [F2 j (fun g hg2 hjg => hj ⟨g, hg2, hjg⟩)]
      exact frameFields_refl _

/-- Example site with a pre-existing date, bypassing scheduling. -/
def egPre : Site := ⟨"P", 50, 50, "City", "", "Sub", 1, "2024-12-25", none⟩

/-- Concrete input for the completion-and-frame witness. -/
def egSites4 : List Site := [egA, egB, egPre]

/-- The scheduler the constructor builds over egSites4. -/
def egSch4 : SiteScheduler :=
  { sites := egSites4
    current_date := ⟨2025, 1, 1⟩
    max_pair_distance := 5
    groups := flattenGroups (buildNested egSites4)
    city_centers := cityCenters egSites4 (buildNested egSites4) }

/-- The heap the schedule run over egSch4 produces. -/
def egHeapF : List Site :=
  match schedule egDist egSch4 with
  | .ok l => l
  | .error _ => []

/-- Witness for C4 at the concrete three-site input with one pre-dated
site: every site ends dated, the pre-dated record is unchanged, and all
frame fields are preserved. -/
theorem schedule_completion_and_frame_witness :
    egHeapF.length = egSites4.length ∧
    (∀ j, j < egSites4.length → (heapGet egHeapF j).date ≠ "") ∧
    (∀ j, (heapGet egSites4 j).date ≠ "" → heapGet egHeapF j = heapGet egSites4 j) ∧
    (∀ j, frameFields (heapGet egHeapF j) (heapGet egSites4 j)) :=
  schedule_completion_and_frame egDist egSites4 (some "2025-01-01") none
    ⟨2026, 1, 1⟩ egSch4 egHeapF (by with_unfolding_all rfl)
    (by with_unfolding_all rfl)

/-- Over a duplicate-free pool, every generated candidate joins two
different references. -/
theorem pairCandidatesIdxAux_ne {dist : DistFn} {heap : List Site} {maxD : ℚ} :
    ∀ {idxs : List Nat} {used : List SiteId} {t : Nat × Nat × ℚ},
      idxs.Nodup → t ∈ pairCandidatesIdxAux dist heap maxD used idxs →
      t.1 ≠ t.2.1 := by
  intro idxs
  induction idxs with
  | nil => intro used t _ ht; simp [pairCandidatesIdxAux] at ht
  | cons i rest ih =>
      intro used t hnd ht
      rw [pairCandidatesIdxAux] at ht
      split at ht
      · exact ih (List.nodup_cons.mp hnd).2 ht
      · rw [List.mem_append] at ht
        rcases ht with ht | ht
        · rw [List.mem_filterMap] at ht
          obtain ⟨j, hj, hf⟩ := ht
          split at hf
          · exact absurd hf (by simp)
          · dsimp only at hf
            split at hf
            · simp only [Option.some.injEq] at hf
              intro e
              rw [← hf] at e
              dsimp only at e
              exact (List.nodup_cons.mp hnd).1 (by rw [e]; exact hj)
            · exact absurd hf (by simp)
        · exact ih (List.nodup_cons.mp hnd).2 ht

/-- No identity key of a pair the index-level greedy scan returns is in
the used set it started from. -/
theorem greedySelectIdx_not_used {heap : List Site} :
    ∀ (l : List (Nat × Nat × ℚ)) (u : List SiteId),
      ∀ t ∈ greedySelectIdx heap l u,
        (u.any (fun k => k = siteId (heapGet heap t.1))) = false ∧
        (u.any (fun k => k = siteId (heapGet heap t.2.1))) = false := by
  intro l
  induction l with
  | nil => intro u t ht; simp [greedySelectIdx] at ht
  | cons p rest ih =>
      intro u t ht
      obtain ⟨i, j, d⟩ := p
      rw [greedySelectIdx] at ht
      split at ht
      · rename_i hcond
        rcases List.mem_cons.mp ht with ht | ht
        · subst ht
          exact ⟨bool_eq_false_of_ne hcond.1, bool_eq_false_of_ne hcond.2⟩
        · have h2 := ih _ t ht
          simp only [List.any_append, Bool.or_eq_false_iff] at h2
          exact ⟨h2.1.1, h2.2.1⟩
      · exact ih u t ht

/-- The pairs the index-level greedy scan returns are pairwise disjoint in
identity keys. -/
theorem greedySelectIdx_pairwise {heap : List Site} :
    ∀ (l : List (Nat × Nat × ℚ)) (u : List SiteId),
      List.Pairwise (fun t q =>
        siteId (heapGet heap t.1) ≠ siteId (heapGet heap q.1) ∧
        siteId (heapGet heap t.1) ≠ siteId (heapGet heap q.2.1) ∧
        siteId (heapGet heap t.2.1) ≠ siteId (heapGet heap q.1) ∧
        siteId (heapGet heap t.2.1) ≠ siteId (heapGet heap q.2.1))
        (greedySelectIdx heap l u) := by
  intro l
  induction l with
  | nil => intro u; simp [greedySelectIdx]
  | cons p rest ih =>
      intro u
      obtain ⟨i, j, d⟩ := p
      rw [greedySelectIdx]
      split
      · refine List.Pairwise.cons ?_ (ih _)
        intro q hq
        have h2 := greedySelectIdx_not_used _ _ q hq
        simp only [List.any_append, List.any_cons, List.any_nil,
          Bool.or_eq_false_iff, decide_eq_false_iff_not] at h2
        exact ⟨h2.1.2.1, h2.2.2.1, h2.1.2.2.1, h2.2.2.2.1⟩
      · exact ih u

/-- The pairing method's output on a duplicate-free pool: each pair joins
two distinct pooled references and the pairs are pairwise key-disjoint. -/
theorem findAllPairsIdx_sound {dist : DistFn} {heap : List Site}
    {idxs : List Nat} {maxD : ℚ} (hnd : idxs.Nodup) :
    (∀ t ∈ findAllPairsIdx dist heap idxs maxD,
      t.1 ∈ idxs ∧ t.2.1 ∈ idxs ∧ t.1 ≠ t.2.1) ∧
    List.Pairwise (fun t q =>
      siteId (heapGet heap t.1) ≠ siteId (heapGet heap q.1) ∧
      siteId (heapGet heap t.1) ≠ siteId (heapGet heap q.2.1) ∧
      siteId (heapGet heap t.2.1) ≠ siteId (heapGet heap q.1) ∧
      siteId (heapGet heap t.2.1) ≠ siteId (heapGet heap q.2.1))
      (findAllPairsIdx dist heap idxs maxD) := by
  constructor
  · intro t ht
    have hm := findAllPairsIdx_mem ht
    unfold findAllPairsIdx at ht
    have h1 := greedySelectIdx_subset _ _ t ht
    have h2 := (List.mergeSort_perm (pairCandidatesIdxAux dist heap maxD [] idxs)
      distLe).mem_iff.mp h1
    exact ⟨hm.1, hm.2, pairCandidatesIdxAux_ne hnd h2⟩
  · exact greedySelectIdx_pairwise _ []

/-- The bookkeeping fold establishes any key-indexed property of map
entries satisfied by both writes of every recorded pair. -/
theorem buildPairState_fold_char {heap : List Site}
    (P : SiteId → Nat → ℚ → Prop) :
    ∀ (pairs : List (Nat × Nat × ℚ))
      (st : List SiteId × (SiteId → Option (Nat × ℚ))),
      (∀ k i d2, st.2 k = some (i, d2) → P k i d2) →
      (∀ t ∈ pairs,
        P (siteId (heapGet heap t.2.1)) t.1 t.2.2 ∧
        P (siteId (heapGet heap t.1)) t.2.1 t.2.2) →
      ∀ k i d2,
        (pairs.foldl
          (fun (st : List SiteId × (SiteId → Option (Nat × ℚ)))
              (t : Nat × Nat × ℚ) =>
            (st.1 ++ [siteId (heapGet heap t.1), siteId (heapGet heap t.2.1)],
              fun k =>
                if k = siteId (heapGet heap t.2.1) then some (t.1, t.2.2)
                else if k = siteId (heapGet heap t.1) then some (t.2.1, t.2.2)
                else st.2 k)) st).2 k = some (i, d2) → P k i d2 := by
  intro pairs
  induction pairs with
  | nil => intro st hst _ k i d2 hk; exact hst k i d2 hk
  | cons p rest ih =>
      intro st hst hall k i d2 hk
      rw [List.foldl_cons] at hk
      refine ih _ ?_ (fun t ht => hall t (List.mem_cons_of_mem _ ht)) k i d2 hk
      intro k2 i2 d3 hk2
      dsimp only at hk2
      split at hk2
      · rename_i hc
        simp only [Option.some.injEq, Prod.mk.injEq] at hk2
        rw [hc, ← hk2.1, ← hk2.2]
        exact (hall p (List.mem_cons_self _ _)).1
      · split at hk2
        · rename_i hc
          simp only [Option.some.injEq, Prod.mk.injEq] at hk2
          rw [hc, ← hk2.1, ← hk2.2]
          exact (hall p (List.mem_cons_self _ _)).2
        · exact hst k2 i2 d3 hk2

/-- Every defined entry of the pair bookkeeping map is one of the two
writes of a recorded pair: the key is an endpoint's identity and the
value is the opposite endpoint. -/
theorem buildPairState_map_char {heap : List Site}
    {pairs : List (Nat × Nat × ℚ)} {k : SiteId} {i : Nat} {d2 : ℚ}
    (hk : (buildPairState heap pairs).2 k = some (i, d2)) :
    ∃ t ∈ pairs,
      (k = siteId (heapGet heap t.1) ∧ i = t.2.1) ∨
      (k = siteId (heapGet heap t.2.1) ∧ i = t.1) := by
  unfold buildPairState at hk
  refine buildPairState_fold_char
    (fun k i _ => ∃ t ∈ pairs,
      (k = siteId (heapGet heap t.1) ∧ i = t.2.1) ∨
      (k = siteId (heapGet heap t.2.1) ∧ i = t.1))
    pairs ([], fun _ => none) (fun k i d2 hk2 => by simp at hk2)
    (fun t ht => ⟨⟨t, ht, Or.inr ⟨rfl, rfl⟩⟩, ⟨t, ht, Or.inl ⟨rfl, rfl⟩⟩⟩)
    k i d2 hk

/-- The bookkeeping fold never erases a defined map entry. -/
theorem buildPairState_fold_some_mono {heap : List Site} :
    ∀ (pairs : List (Nat × Nat × ℚ))
      (st : List SiteId × (SiteId → Option (Nat × ℚ))) (k : SiteId),
      st.2 k ≠ none →
      (pairs.foldl
        (fun (st : List SiteId × (SiteId → Option (Nat × ℚ)))
            (t : Nat × Nat × ℚ) =>
          (st.1 ++ [siteId (heapGet heap t.1), siteId (heapGet heap t.2.1)],
            fun k =>
              if k = siteId (heapGet heap t.2.1) then some (t.1, t.2.2)
              else if k = siteId (heapGet heap t.1) then some (t.2.1, t.2.2)
              else st.2 k)) st).2 k ≠ none := by
  intro pairs
  induction pairs with
  | nil => intro st k hk; exact hk
  | cons p rest ih =>
      intro st k hk
      rw [List.foldl_cons]
      refine ih _ k ?_
      dsimp only
      split
      · simp
      · split
        · simp
        · exact hk

/-- The bookkeeping fold only grows the eligible-key list. -/
theorem buildPairState_fold_list_mono {heap : List Site} :
    ∀ (pairs : List (Nat × Nat × ℚ))
      (st : List SiteId × (SiteId → Option (Nat × ℚ))) (k : SiteId),
      k ∈ st.1 →
      k ∈ (pairs.foldl
        (fun (st : List SiteId × (SiteId → Option (Nat × ℚ)))
            (t : Nat × Nat × ℚ) =>
          (st.1 ++ [siteId (heapGet heap t.1), siteId (heapGet heap t.2.1)],
            fun k =>
              if k = siteId (heapGet heap t.2.1) then some (t.1, t.2.2)
              else if k = siteId (heapGet heap t.1) then some (t.2.1, t.2.2)
              else st.2 k)) st).1 := by
  intro pairs
  induction pairs with
  | nil => intro st k hk; exact hk
  | cons p rest ih =>
      intro st k hk
      rw [List.foldl_cons]
      exact ih _ k (List.mem_append_left _ hk)

/-- Both identity keys of every recorded pair are defined in the map and
present in the eligible-key list of the bookkeeping. -/
theorem buildPairState_keys {heap : List Site} :
    ∀ (pairs : List (Nat × Nat × ℚ)), ∀ t ∈ pairs,
      ((buildPairState heap pairs).2 (siteId (heapGet heap t.1)) ≠ none ∧
        (buildPairState heap pairs).2 (siteId (heapGet heap t.2.1)) ≠ none) ∧
      (siteId (heapGet heap t.1) ∈ (buildPairState heap pairs).1 ∧
        siteId (heapGet heap t.2.1) ∈ (buildPairState heap pairs).1) := by
  have main : ∀ (pairs : List (Nat × Nat × ℚ))
      (st : List SiteId × (SiteId → Option (Nat × ℚ))), ∀ t ∈ pairs,
      ((pairs.foldl
        (fun (st : List SiteId × (SiteId → Option (Nat × ℚ)))
            (t : Nat × Nat × ℚ) =>
          (st.1 ++ [siteId (heapGet heap t.1), siteId (heapGet heap t.2.1)],
            fun k =>
              if k = siteId (heapGet heap t.2.1) then some (t.1, t.2.2)
              else if k = siteId (heapGet heap t.1) then some (t.2.1, t.2.2)
              else st.2 k)) st).2 (siteId (heapGet heap t.1)) ≠ none ∧
        (pairs.foldl
        (fun (st : List SiteId × (SiteId → Option (Nat × ℚ)))
            (t : Nat × Nat × ℚ) =>
          (st.1 ++ [siteId (heapGet heap t.1), siteId (heapGet heap t.2.1)],
            fun k =>
              if k = siteId (heapGet heap t.2.1) then some (t.1, t.2.2)
              else if k = siteId (heapGet heap t.1) then some (t.2.1, t.2.2)
              else st.2 k)) st).2 (siteId (heapGet heap t.2.1)) ≠ none) ∧
      (siteId (heapGet heap t.1) ∈ (pairs.foldl
        (fun (st : List SiteId × (SiteId → Option (Nat × ℚ)))
            (t : Nat × Nat × ℚ) =>
          (st.1 ++ [siteId (heapGet heap t.1), siteId (heapGet heap t.2.1)],
            fun k =>
              if k = siteId (heapGet heap t.2.1) then some (t.1, t.2.2)
              else if k = siteId (heapGet heap t.1) then some (t.2.1, t.2.2)
              else st.2 k)) st).1 ∧
        siteId (heapGet heap t.2.1) ∈ (pairs.foldl
        (fun (st : List SiteId × (SiteId → Option (Nat × ℚ)))
            (t : Nat × Nat × ℚ) =>
          (st.1 ++ [siteId (heapGet heap t.1), siteId (heapGet heap t.2.1)],
            fun k =>
              if k = siteId (heapGet heap t.2.1) then some (t.1, t.2.2)
              else if k = siteId (heapGet heap t.1) then some (t.2.1, t.2.2)
              else st.2 k)) st).1) := by
    intro pairs
    induction pairs with
    | nil => intro st t ht; simp at ht
    | cons p rest ih =>
        intro st t ht
        rcases List.mem_cons.mp ht with ht | ht
        · subst ht
          rw [List.foldl_cons]
          refine ⟨⟨buildPairState_fold_some_mono rest _ _ ?_,
              buildPairState_fold_some_mono rest _ _ ?_⟩,
            buildPairState_fold_list_mono rest _ _ ?_,
            buildPairState_fold_list_mono rest _ _ ?_⟩
          · dsimp only
            split
            · simp
            · simp
          · dsimp only
            simp
          · dsimp only
            simp
          · dsimp only
            simp
        · rw [List.foldl_cons]
          exact ih _ t ht
  intro pairs t ht
  exact main pairs ([], fun _ => none) t ht

/-- A passed distinct-keys check means the identity key determines the
reference within the list. -/
theorem distinctKeys_sound {heap : List Site} :
    ∀ {members : List Nat}, distinctKeys heap members = true →
      ∀ i ∈ members, ∀ j ∈ members,
        siteId (heapGet heap i) = siteId (heapGet heap j) → i = j := by
  intro members
  induction members with
  | nil => intro _ i hi; exact absurd hi (List.not_mem_nil i)
  | cons a rest ih =>
      intro h i hi j hj he
      rw [distinctKeys, Bool.and_eq_true, List.all_eq_true] at h
      rcases List.mem_cons.mp hi with hi2 | hi2 <;>
        rcases List.mem_cons.mp hj with hj2 | hj2
      · rw [hi2, hj2]
      · subst hi2
        exact absurd he (of_decide_eq_true (h.1 j hj2))
      · subst hj2
        exact absurd he.symm (of_decide_eq_true (h.1 i hi2))
      · exact ih h.2 i hi2 j hj2 he

/-- A pooled reference's own record is found by the membership test. -/
theorem poolHas_of_mem {heap : List Site} {j : Nat} {pool : List Nat}
    (hj : j ∈ pool) : poolHas heap (heapGet heap j) pool = true := by
  unfold poolHas
  rw [List.any_eq_true]
  exact ⟨j, hj, pyEqb_refl _⟩

/-- Under a pair system whose endpoints are all pooled, an iteration body
never takes the fallback branch. -/
theorem scheduleStep_no_fallback {dist : DistFn}
    {centers : List (String × ℚ × ℚ)} {city : String} {heap : List Site}
    {pool : List Nat} {paired : List SiteId}
    {pairMap : SiteId → Option (Nat × ℚ)} {cur : Date} {out}
    {S : List (Nat × Nat × ℚ)}
    (hstep : scheduleStep dist centers city heap pool paired pairMap cur = .ok out)
    (hS1 : ∀ t ∈ S, t.1 ∈ pool ∧ t.2.1 ∈ pool ∧ t.1 ≠ t.2.1)
    (hS2 : ∀ k i d2, pairMap k = some (i, d2) →
      ∃ t ∈ S, (k = siteId (heapGet heap t.1) ∧ i = t.2.1) ∨
        (k = siteId (heapGet heap t.2.1) ∧ i = t.1)) :
    out.1.branch ≠ BranchKind.pairFallback := by
  obtain ⟨nearest, tl, hs, hc⟩ := scheduleStep_ok_inv hstep
  have hperm : (nearest :: tl).Perm pool := by
    rw [← hs]
    exact List.mergeSort_perm pool _
  rcases hc with ⟨pr, pool1, pool2x, _, _, _, _, _, hout⟩ |
    ⟨pr, pool1, hpr, hany, hhas, h1, hout⟩ | ⟨pool1, _, _, hout⟩
  · subst hout; simp
  · exfalso
    obtain ⟨t, ht, horient⟩ := hS2 _ _ _ hpr
    have hp_pool : pr.1 ∈ pool := by
      rcases horient with ⟨_, hi⟩ | ⟨_, hi⟩
      · rw [hi]; exact (hS1 t ht).2.1
      · rw [hi]; exact (hS1 t ht).1
    have htrue : poolHas heap (heapGet heap pr.1) (nearest :: tl) = true :=
      poolHas_of_mem (hperm.mem_iff.mpr hp_pool)
    rw [htrue] at hhas
    exact absurd hhas (by decide)
  · subst hout; simp

/-- Every iteration of the loop logs one or two assigned references. -/
theorem scheduleLoop_log_sizes (dist : DistFn)
    (centers : List (String × ℚ × ℚ)) (city : String) (heap : List Site)
    (pool : List Nat) (paired : List SiteId)
    (pairMap : SiteId → Option (Nat × ℚ)) (cur : Date) :
    ∀ log ∈ (scheduleLoop dist centers city heap pool paired pairMap cur).1,
      log.assigned ≠ [] ∧ log.assigned.length ≤ 2 := by
  induction heap, pool, paired, pairMap, cur
    using scheduleLoop.induct dist centers city with
  | case1 heap paired pairMap cur =>
      rw [scheduleLoop_nil]
      intro log hlog
      exact absurd hlog (List.not_mem_nil log)
  | case2 heap pool paired pairMap cur hpool e hstep =>
      rw [scheduleLoop_step_err hpool hstep]
      intro log hlog
      exact absurd hlog (List.not_mem_nil log)
  | case3 heap pool paired pairMap cur hpool log heap2 pool2 paired2 pm2 hstep e hadv =>
      rw [scheduleLoop_adv_err hpool hstep hadv]
      intro log0 hlog0
      rcases List.mem_cons.mp hlog0 with hE | hE
      · rw [hE]
        exact (scheduleStep_out_log hstep).2
      · exact absurd hE (List.not_mem_nil log0)
  | case4 heap pool paired pairMap cur hpool log heap2 pool2 paired2 pm2 hstep cur2 hadv ih =>
      rw [scheduleLoop_cons hpool hstep hadv]
      intro log0 hlog0
      dsimp only at hlog0
      rcases List.mem_cons.mp hlog0 with hE | hE
      · rw [hE]
        exact (scheduleStep_out_log hstep).2
      · exact ih log0 hE

/-- A list of naturals each between 1 and 2 has its sum between its
length and twice its length. -/
theorem sum_bounds_of_one_two :
    ∀ (l : List Nat), (∀ x ∈ l, 1 ≤ x ∧ x ≤ 2) →
      l.length ≤ l.sum ∧ l.sum ≤ 2 * l.length := by
  intro l
  induction l with
  | nil => intro _; simp
  | cons x xs ih =>
      intro h
      have hx := h x (List.mem_cons_self _ _)
      have hxs := ih (fun y hy => h y (List.mem_cons_of_mem _ hy))
      simp only [List.length_cons, List.sum_cons]
      omega

/-- Main pair-system invariant for the day-assignment loop: if the pooled
references carry injective identity keys and the pair bookkeeping is
exactly the writes of a retained pair list S whose endpoints are pooled,
distinct and pairwise disjoint, with both keys of every retained pair
defined in the map and present in the paired set, then no iteration of
the loop ever takes the fallback branch. -/
theorem scheduleLoop_no_fallback (dist : DistFn)
    (centers : List (String × ℚ × ℚ)) (city : String) (heap : List Site)
    (pool : List Nat) (paired : List SiteId)
    (pairMap : SiteId → Option (Nat × ℚ)) (cur : Date) :
    ∀ S : List (Nat × Nat × ℚ),
      pool.Nodup →
      (∀ j ∈ pool, j < heap.length) →
      (∀ j ∈ pool, (heapGet heap j).date = "") →
      (∀ i ∈ pool, ∀ j ∈ pool,
        siteId (heapGet heap i) = siteId (heapGet heap j) → i = j) →
      (∀ t ∈ S, t.1 ∈ pool ∧ t.2.1 ∈ pool ∧ t.1 ≠ t.2.1) →
      (∀ k i d2, pairMap k = some (i, d2) →
        ∃ t ∈ S, (k = siteId (heapGet heap t.1) ∧ i = t.2.1) ∨
          (k = siteId (heapGet heap t.2.1) ∧ i = t.1)) →
      (∀ t ∈ S, pairMap (siteId (heapGet heap t.1)) ≠ none ∧
        pairMap (siteId (heapGet heap t.2.1)) ≠ none) →
      (∀ t ∈ S,
        (paired.any (fun k => k = siteId (heapGet heap t.1))) = true ∧
        (paired.any (fun k => k = siteId (heapGet heap t.2.1))) = true) →
      List.Pairwise (fun t q =>
        t.1 ≠ q.1 ∧ t.1 ≠ q.2.1 ∧ t.2.1 ≠ q.1 ∧ t.2.1 ≠ q.2.1) S →
      ∀ log0 ∈ (scheduleLoop dist centers city heap pool paired pairMap cur).1,
        log0.branch ≠ BranchKind.pairFallback := by
  induction heap, pool, paired, pairMap, cur
    using scheduleLoop.induct dist centers city with
  | case1 heap paired pairMap cur =>
      intro S _ _ _ _ _ _ _ _ _ log0 hlog0
      rw [scheduleLoop_nil] at hlog0
      exact absurd hlog0 (List.not_mem_nil log0)
  | case2 heap pool paired pairMap cur hpool e hstep =>
      intro S _ _ _ _ _ _ _ _ _ log0 hlog0
      rw [scheduleLoop_step_err hpool hstep] at hlog0
      exact absurd hlog0 (List.not_mem_nil log0)
  | case3 heap pool paired pairMap cur hpool log heap2 pool2 paired2 pm2 hstep e hadv =>
      intro S _ _ _ _ hS1 hS2map _ _ _ log0 hlog0
      rw [scheduleLoop_adv_err hpool hstep hadv] at hlog0
      rcases List.mem_cons.mp hlog0 with hE | hE
      · rw [hE]
        exact scheduleStep_no_fallback hstep hS1 hS2map
      · exact absurd hE (List.not_mem_nil log0)
  | case4 heap pool paired pairMap cur hpool log heap2 pool2 paired2 pm2 hstep cur2 hadv ih =>
      intro S hnodup hlt hundated hkeyinj hS1 hS2map hS3 hS4 hS9 log0 hlog0
      rw [scheduleLoop_cons hpool hstep hadv] at hlog0
      dsimp only at hlog0
      rcases List.mem_cons.mp hlog0 with hE | hrest
      · rw [hE]
        exact scheduleStep_no_fallback hstep hS1 hS2map
      · have hpartner : ∀ k i d2, pairMap k = some (i, d2) →
            i ∈ pool ∨ (heapGet heap i).date ≠ "" := by
          intro k i d2 hk
          obtain ⟨t, ht, ho⟩ := hS2map k i d2 hk
          left
          rcases ho with ⟨_, hi⟩ | ⟨_, hi⟩
          · rw [hi]; exact (hS1 t ht).2.1
          · rw [hi]; exact (hS1 t ht).1
        obtain ⟨nearest, tl, hs, hc⟩ := scheduleStep_ok_inv hstep
        have hperm : (nearest :: tl).Perm pool := by
          rw [← hs]
          exact List.mergeSort_perm pool _
        have hnearest_pool : nearest ∈ pool :=
          hperm.mem_iff.mp (List.mem_cons_self _ _)
        have hsymm : Symmetric (fun t q : Nat × Nat × ℚ =>
            t.1 ≠ q.1 ∧ t.1 ≠ q.2.1 ∧ t.2.1 ≠ q.1 ∧ t.2.1 ≠ q.2.1) := by
          intro t q hq
          exact ⟨fun e => hq.1 e.symm, fun e => hq.2.2.1 e.symm,
            fun e => hq.2.1 e.symm, fun e => hq.2.2.2 e.symm⟩
        have huniq : ∀ t ∈ S, ∀ u ∈ S,
            (t.1 = u.1 ∨ t.1 = u.2.1 ∨ t.2.1 = u.1 ∨ t.2.1 = u.2.1) →
            t = u := by
          intro t ht u hu hshare
          by_contra hne
          have hd := List.Pairwise.forall hsymm hS9 ht hu hne
          rcases hshare with e | e | e | e
          · exact hd.1 e
          · exact hd.2.1 e
          · exact hd.2.2.1 e
          · exact hd.2.2.2 e
        have hkeyne : ∀ a ∈ pool, ∀ b ∈ pool, a ≠ b →
            siteId (heapGet heap a) ≠ siteId (heapGet heap b) := by
          intro a ha b hb hne e
          exact hne (hkeyinj a ha b hb e)
        rcases hc with ⟨pr, pool1, pool2x, hpr, hany, hhas, h1, h2, hout⟩ |
          ⟨pr, pool1, hpr, hany, hhas, h1, hout⟩ |
          ⟨pool1, hcond, h1, hout⟩
        · -- pair arm
          simp only [Prod.mk.injEq] at hout
          obtain ⟨hlogE, hheapE, hpoolE, hpairedE, hpmE⟩ := hout
          subst hlogE hheapE hpoolE hpairedE hpmE
          have St := scheduleStep_state hstep hnodup hlt hundated hpartner
          dsimp only at St
          obtain ⟨S1, S2, S3, S4, S5, S6, S7⟩ := St
          have hkeyall : ∀ j,
              siteId (heapGet (pairHeap heap nearest pr.1 cur) j) =
                siteId (heapGet heap j) := by
            intro j
            unfold pairHeap
            rw [siteId_assignDate, siteId_assignDate]
          obtain ⟨t0, ht0, ho0⟩ := hS2map _ _ _ hpr
          have hp_pool : pr.1 ∈ pool := by
            rcases ho0 with ⟨_, hi⟩ | ⟨_, hi⟩
            · rw [hi]; exact (hS1 t0 ht0).2.1
            · rw [hi]; exact (hS1 t0 ht0).1
          have ht0E : (t0.1 = nearest ∧ t0.2.1 = pr.1) ∨
              (t0.1 = pr.1 ∧ t0.2.1 = nearest) := by
            rcases ho0 with ⟨hk, hi⟩ | ⟨hk, hi⟩
            · exact Or.inl
                ⟨(hkeyinj nearest hnearest_pool t0.1 (hS1 t0 ht0).1 hk).symm,
                  hi.symm⟩
            · exact Or.inr
                ⟨hi.symm,
                  (hkeyinj nearest hnearest_pool t0.2.1 (hS1 t0 ht0).2.1 hk).symm⟩
          have htouch : ∀ t ∈ S,
              (t.1 = nearest ∨ t.1 = pr.1 ∨ t.2.1 = nearest ∨ t.2.1 = pr.1) →
              t = t0 := by
            intro t ht htt
            refine huniq t ht t0 ht0 ?_
            rcases ht0E with ⟨e1, e2⟩ | ⟨e1, e2⟩
            · rcases htt with h | h | h | h
              · exact Or.inl (h.trans e1.symm)
              · exact Or.inr (Or.inl (h.trans e2.symm))
              · exact Or.inr (Or.inr (Or.inl (h.trans e1.symm)))
              · exact Or.inr (Or.inr (Or.inr (h.trans e2.symm)))
            · rcases htt with h | h | h | h
              · exact Or.inr (Or.inl (h.trans e2.symm))
              · exact Or.inl (h.trans e1.symm)
              · exact Or.inr (Or.inr (Or.inr (h.trans e2.symm)))
              · exact Or.inr (Or.inr (Or.inl (h.trans e1.symm)))
          have hpid : siteId (heapGet (pairHeap heap nearest pr.1 cur) pr.1) =
              siteId (heapGet heap pr.1) := hkeyall pr.1
          have hmemS' : ∀ u, u ∈ S.filter (fun u =>
              decide (u.1 ≠ nearest ∧ u.1 ≠ pr.1 ∧
                u.2.1 ≠ nearest ∧ u.2.1 ≠ pr.1)) ↔
              u ∈ S ∧ u.1 ≠ nearest ∧ u.1 ≠ pr.1 ∧
                u.2.1 ≠ nearest ∧ u.2.1 ≠ pr.1 := by
            intro u
            rw [List.mem_filter]
            simp
          have hlt2 : ∀ j ∈ pool2,
              j < (pairHeap heap nearest pr.1 cur).length := by
            intro j hj
            rw [S1]
            exact hlt j ((S4 j).mp hj).1
          have hund2 : ∀ j ∈ pool2,
              (heapGet (pairHeap heap nearest pr.1 cur) j).date = "" := by
            intro j hj
            rw [S2 j ((S4 j).mp hj).2]
            exact hundated j ((S4 j).mp hj).1
          have hinj2 : ∀ i ∈ pool2, ∀ j ∈ pool2,
              siteId (heapGet (pairHeap heap nearest pr.1 cur) i) =
                siteId (heapGet (pairHeap heap nearest pr.1 cur) j) → i = j := by
            intro i hi j hj e
            rw [hkeyall, hkeyall] at e
            exact hkeyinj i ((S4 i).mp hi).1 j ((S4 j).mp hj).1 e
          have hS1' : ∀ t ∈ S.filter (fun u =>
              decide (u.1 ≠ nearest ∧ u.1 ≠ pr.1 ∧
                u.2.1 ≠ nearest ∧ u.2.1 ≠ pr.1)),
              t.1 ∈ pool2 ∧ t.2.1 ∈ pool2 ∧ t.1 ≠ t.2.1 := by
            intro t ht'
            rw [hmemS'] at ht'
            obtain ⟨ht, hn1, hn2, hn3, hn4⟩ := ht'
            refine ⟨(S4 t.1).mpr ⟨(hS1 t ht).1, ?_⟩,
              (S4 t.2.1).mpr ⟨(hS1 t ht).2.1, ?_⟩, (hS1 t ht).2.2⟩
            · intro hm
              rcases List.mem_cons.mp hm with e | hm2
              · exact hn1 e
              · rcases List.mem_cons.mp hm2 with e | hm3
                · exact hn2 e
                · exact absurd hm3 (List.not_mem_nil _)
            · intro hm
              rcases List.mem_cons.mp hm with e | hm2
              · exact hn3 e
              · rcases List.mem_cons.mp hm2 with e | hm3
                · exact hn4 e
                · exact absurd hm3 (List.not_mem_nil _)
          refine ih (S.filter (fun u =>
              decide (u.1 ≠ nearest ∧ u.1 ≠ pr.1 ∧
                u.2.1 ≠ nearest ∧ u.2.1 ≠ pr.1)))
            S5 hlt2 hund2 hinj2 hS1' ?_ ?_ ?_ ?_ log0 hrest
          · -- map characterization for the shrunk system
            intro k i d2 hk
            dsimp only at hk
            rw [hpid] at hk
            split at hk
            · exact absurd hk (by simp)
            · rename_i hcond2
              obtain ⟨t, ht, ho⟩ := hS2map k i d2 hk
              have hnt : ¬(t.1 = nearest ∨ t.1 = pr.1 ∨
                  t.2.1 = nearest ∨ t.2.1 = pr.1) := by
                intro htt
                have he := htouch t ht htt
                subst he
                rcases ho with ⟨hkk, _⟩ | ⟨hkk, _⟩
                · rcases ht0E with ⟨e1, _⟩ | ⟨e1, _⟩
                  · exact hcond2 (Or.inl (by rw [hkk, e1]))
                  · exact hcond2 (Or.inr (by rw [hkk, e1]))
                · rcases ht0E with ⟨_, e2⟩ | ⟨_, e2⟩
                  · exact hcond2 (Or.inr (by rw [hkk, e2]))
                  · exact hcond2 (Or.inl (by rw [hkk, e2]))
              refine ⟨t, (hmemS' t).mpr ⟨ht, ?_, ?_, ?_, ?_⟩, ?_⟩
              · exact fun e => hnt (Or.inl e)
              · exact fun e => hnt (Or.inr (Or.inl e))
              · exact fun e => hnt (Or.inr (Or.inr (Or.inl e)))
              · exact fun e => hnt (Or.inr (Or.inr (Or.inr e)))
              · rw [hkeyall, hkeyall]
                exact ho
          · -- both keys still defined in the shrunk map
            intro t ht'
            rw [hmemS'] at ht'
            obtain ⟨ht, hn1, hn2, hn3, hn4⟩ := ht'
            have hk1a := hkeyne t.1 (hS1 t ht).1 nearest hnearest_pool hn1
            have hk1b := hkeyne t.1 (hS1 t ht).1 pr.1 hp_pool hn2
            have hk2a := hkeyne t.2.1 (hS1 t ht).2.1 nearest hnearest_pool hn3
            have hk2b := hkeyne t.2.1 (hS1 t ht).2.1 pr.1 hp_pool hn4
            constructor
            · dsimp only
              simp only [hkeyall]
              rw [if_neg (fun h => h.elim hk1a hk1b)]
              exact (hS3 t ht).1
            · dsimp only
              simp only [hkeyall]
              rw [if_neg (fun h => h.elim hk2a hk2b)]
              exact (hS3 t ht).2
          · -- both keys still in the paired set
            intro t ht'
            rw [hmemS'] at ht'
            obtain ⟨ht, hn1, hn2, hn3, hn4⟩ := ht'
            have hk1a := hkeyne t.1 (hS1 t ht).1 nearest hnearest_pool hn1
            have hk1b := hkeyne t.1 (hS1 t ht).1 pr.1 hp_pool hn2
            have hk2a := hkeyne t.2.1 (hS1 t ht).2.1 nearest hnearest_pool hn3
            have hk2b := hkeyne t.2.1 (hS1 t ht).2.1 pr.1 hp_pool hn4
            constructor
            · simp only [hkeyall]
              rw [List.any_eq_true]
              have hx := (hS4 t ht).1
              rw [List.any_eq_true] at hx
              obtain ⟨k0, hk0, he0⟩ := hx
              have hk0e : k0 = siteId (heapGet heap t.1) :=
                of_decide_eq_true he0
              refine ⟨k0, ?_, he0⟩
              rw [List.mem_filter]
              refine ⟨?_, decide_eq_true (fun e => hk1b (by rw [← hk0e]; exact e))⟩
              rw [List.mem_filter]
              exact ⟨hk0, decide_eq_true (fun e => hk1a (by rw [← hk0e]; exact e))⟩
            · simp only [hkeyall]
              rw [List.any_eq_true]
              have hx := (hS4 t ht).2
              rw [List.any_eq_true] at hx
              obtain ⟨k0, hk0, he0⟩ := hx
              have hk0e : k0 = siteId (heapGet heap t.2.1) :=
                of_decide_eq_true he0
              refine ⟨k0, ?_, he0⟩
              rw [List.mem_filter]
              refine ⟨?_, decide_eq_true (fun e => hk2b (by rw [← hk0e]; exact e))⟩
              rw [List.mem_filter]
              exact ⟨hk0, decide_eq_true (fun e => hk2a (by rw [← hk0e]; exact e))⟩
          · exact List.Pairwise.sublist (List.filter_sublist S) hS9
        · -- fallback arm: contradiction with the retained-pair invariant
          exfalso
          obtain ⟨t, ht, horient⟩ := hS2map _ _ _ hpr
          have hp_pool : pr.1 ∈ pool := by
            rcases horient with ⟨_, hi⟩ | ⟨_, hi⟩
            · rw [hi]; exact (hS1 t ht).2.1
            · rw [hi]; exact (hS1 t ht).1
          have htrue : poolHas heap (heapGet heap pr.1) (nearest :: tl) = true :=
            poolHas_of_mem (hperm.mem_iff.mpr hp_pool)
          rw [htrue] at hhas
          exact absurd hhas (by decide)
        · -- single arm: the pair system is untouched
          simp only [Prod.mk.injEq] at hout
          obtain ⟨hlogE, hheapE, hpoolE, hpairedE, hpmE⟩ := hout
          subst hlogE hheapE hpoolE hpairedE hpmE
          have St := scheduleStep_state hstep hnodup hlt hundated hpartner
          dsimp only at St
          obtain ⟨S1, S2, S3, S4, S5, S6, S7⟩ := St
          have hkeyall : ∀ j,
              siteId (heapGet (singleHeap heap nearest cur) j) =
                siteId (heapGet heap j) := by
            intro j
            unfold singleHeap
            rw [siteId_assignDate]
          have hnot_touch : ∀ t ∈ S, t.1 ≠ nearest ∧ t.2.1 ≠ nearest := by
            intro t ht
            rcases hcond with hnone | hanyf
            · constructor
              · intro e
                apply (hS3 t ht).1
                rw [e]
                exact hnone
              · intro e
                apply (hS3 t ht).2
                rw [e]
                exact hnone
            · constructor
              · intro e
                have hx := (hS4 t ht).1
                rw [e] at hx
                rw [hx] at hanyf
                exact absurd hanyf (by decide)
              · intro e
                have hx := (hS4 t ht).2
                rw [e] at hx
                rw [hx] at hanyf
                exact absurd hanyf (by decide)
          have hlt2 : ∀ j ∈ pool2,
              j < (singleHeap heap nearest cur).length := by
            intro j hj
            rw [S1]
            exact hlt j ((S4 j).mp hj).1
          have hund2 : ∀ j ∈ pool2,
              (heapGet (singleHeap heap nearest cur) j).date = "" := by
            intro j hj
            rw [S2 j ((S4 j).mp hj).2]
            exact hundated j ((S4 j).mp hj).1
          have hinj2 : ∀ i ∈ pool2, ∀ j ∈ pool2,
              siteId (heapGet (singleHeap heap nearest cur) i) =
                siteId (heapGet (singleHeap heap nearest cur) j) → i = j := by
            intro i hi j hj e
            rw [hkeyall, hkeyall] at e
            exact hkeyinj i ((S4 i).mp hi).1 j ((S4 j).mp hj).1 e
          have hS1'' : ∀ t ∈ S, t.1 ∈ pool2 ∧ t.2.1 ∈ pool2 ∧ t.1 ≠ t.2.1 := by
            intro t ht
            refine ⟨(S4 t.1).mpr ⟨(hS1 t ht).1, ?_⟩,
              (S4 t.2.1).mpr ⟨(hS1 t ht).2.1, ?_⟩, (hS1 t ht).2.2⟩
            · intro hm
              rcases List.mem_cons.mp hm with e | hm2
              · exact (hnot_touch t ht).1 e
              · exact absurd hm2 (List.not_mem_nil _)
            · intro hm
              rcases List.mem_cons.mp hm with e | hm2
              · exact (hnot_touch t ht).2 e
              · exact absurd hm2 (List.not_mem_nil _)
          refine ih S S5 hlt2 hund2 hinj2 hS1'' ?_ ?_ ?_ hS9 log0 hrest
          · intro k i d2 hk
            obtain ⟨t, ht, ho⟩ := hS2map k i d2 hk
            refine ⟨t, ht, ?_⟩
            simp only [hkeyall]
            exact ho
          · intro t ht
            constructor
            · simp only [hkeyall]
              exact (hS3 t ht).1
            · simp only [hkeyall]
              exact (hS3 t ht).2
          · intro t ht
            constructor
            · simp only [hkeyall]
              exact (hS4 t ht).1
            · simp only [hkeyall]
              exact (hS4 t ht).2

/-- C9.  If the member references of a group carry pairwise distinct
identity keys (site_name, latitude, longitude), then whenever the
selected nearest site of an iteration belongs to a still-retained pair
its recorded partner is still in the unassigned pool, so the fallback
branch that assigns a date to a paired site alone because its partner was
already consumed is unreachable: no iteration of the group run logs it. -/
theorem scheduleGroup_fallback_unreachable (dist : DistFn)
    (centers : List (String × ℚ × ℚ)) (city : String) (heap : List Site)
    (members : List Nat) (start : Date)
    (hnodup : members.Nodup)
    (hlt : ∀ j ∈ members, j < heap.length)
    (hkeys : distinctKeys heap members = true) :
    ∀ log ∈ (scheduleGroup dist centers city heap members start).1,
      log.branch ≠ BranchKind.pairFallback := by
  intro log hlog
  unfold scheduleGroup at hlog
  split at hlog
  · exact absurd hlog (List.not_mem_nil log)
  · have hnodupP : (groupUnassigned heap members).Nodup :=
      hnodup.filter _
    have hltP : ∀ j ∈ groupUnassigned heap members, j < heap.length :=
      fun j hj => hlt j (List.mem_of_mem_filter hj)
    have hundP : ∀ j ∈ groupUnassigned heap members,
        (heapGet heap j).date = "" := by
      intro j hj
      have := (List.mem_filter.mp hj).2
      exact of_decide_eq_true this
    have hinjP : ∀ i ∈ groupUnassigned heap members,
        ∀ j ∈ groupUnassigned heap members,
        siteId (heapGet heap i) = siteId (heapGet heap j) → i = j := by
      intro i hi j hj e
      exact distinctKeys_sound hkeys i (List.mem_of_mem_filter hi)
        j (List.mem_of_mem_filter hj) e
    have hS1 := (@findAllPairsIdx_sound dist heap
      (groupUnassigned heap members) 5 hnodupP).1
    have hS9P := (@findAllPairsIdx_sound dist heap
      (groupUnassigned heap members) 5 hnodupP).2
    refine scheduleLoop_no_fallback dist centers city heap
      (groupUnassigned heap members) _ _ start
      (findAllPairsIdx dist heap (groupUnassigned heap members) 5)
      hnodupP hltP hundP hinjP hS1
      (fun k i d2 hk => buildPairState_map_char hk)
      (fun t ht => (buildPairState_keys _ t ht).1)
      ?_ ?_ log hlog
    · intro t ht
      obtain ⟨_, hm1, hm2⟩ := buildPairState_keys _ t ht
      constructor
      · rw [List.any_eq_true]
        exact ⟨_, hm1, decide_eq_true rfl⟩
      · rw [List.any_eq_true]
        exact ⟨_, hm2, decide_eq_true rfl⟩
    · refine List.Pairwise.imp ?_ hS9P
      intro t q h
      exact ⟨fun e => h.1 (by rw [e]), fun e => h.2.1 (by rw [e]),
        fun e => h.2.2.1 (by rw [e]), fun e => h.2.2.2 (by rw [e])⟩

/-- Witness for C9 at the concrete three-site group (a retained pair plus
a far single): every logged iteration avoids the fallback branch. -/
theorem scheduleGroup_fallback_unreachable_witness :
    ((scheduleGroup egDist egCenters3 "City" [egA, egB, egC] [0, 1, 2]
        ⟨2025, 1, 1⟩).1).all
      (fun log => decide (log.branch ≠ BranchKind.pairFallback)) = true :=
  List.all_eq_true.mpr (fun log hlog => decide_eq_true
    (scheduleGroup_fallback_unreachable egDist egCenters3 "City"
      [egA, egB, egC] [0, 1, 2] ⟨2025, 1, 1⟩ (by decide) (by decide)
      (by with_unfolding_all rfl) log hlog))

/-- C10.  For a group with at least one unassigned site that runs to
completion: the iteration dates are exactly the consecutive calendar days
starting at the entered start date (one per iteration, in order); the
dates assigned to the group's unassigned sites are exactly the rendered
days of that gap-free run (every site gets a day of the run and every day
of the run is given to some site); and the number T of iterations
satisfies ceil(k/2) ≤ T ≤ k, where k counts the group's unassigned
sites. -/
theorem scheduleGroup_consecutive_dates (dist : DistFn)
    (centers : List (String × ℚ × ℚ)) (city : String) (heap : List Site)
    (members : List Nat) (start : Date) (heapF : List Site)
    (hnodup : members.Nodup)
    (hlt : ∀ j ∈ members, j < heap.length)
    (hk : 1 ≤ (groupUnassigned heap members).length)
    (hok : (scheduleGroup dist centers city heap members start).2 = .ok heapF) :
    ((scheduleGroup dist centers city heap members start).1).map StepLog.date =
      (List.range
        ((scheduleGroup dist centers city heap members start).1).length).map
        (fun t => addDays t start) ∧
    (∀ j ∈ groupUnassigned heap members,
      ∃ t, t < ((scheduleGroup dist centers city heap members start).1).length ∧
        (heapGet heapF j).date = fmtDate (addDays t start)) ∧
    (∀ t, t < ((scheduleGroup dist centers city heap members start).1).length →
      ∃ j ∈ groupUnassigned heap members,
        (heapGet heapF j).date = fmtDate (addDays t start)) ∧
    ((groupUnassigned heap members).length + 1) / 2 ≤
      ((scheduleGroup dist centers city heap members start).1).length ∧
    ((scheduleGroup dist centers city heap members start).1).length ≤
      (groupUnassigned heap members).length := by
  have hne : groupUnassigned heap members ≠ [] := by
    intro e
    rw [e] at hk
    simp at hk
  have hGeq : scheduleGroup dist centers city heap members start =
      scheduleLoop dist centers city heap (groupUnassigned heap members)
        (buildPairState heap (findAllPairsIdx dist heap
          (groupUnassigned heap members) 5)).1
        (buildPairState heap (findAllPairsIdx dist heap
          (groupUnassigned heap members) 5)).2 start := by
    unfold scheduleGroup
    rw [if_neg hne]
  have hpool_nodup : (groupUnassigned heap members).Nodup := hnodup.filter _
  have hpool_sub : ∀ j ∈ groupUnassigned heap members, j ∈ members :=
    fun j hj => (List.mem_filter.mp hj).1
  have hpool_lt : ∀ j ∈ groupUnassigned heap members, j < heap.length :=
    fun j hj => hlt j (hpool_sub j hj)
  have hpool_undated : ∀ j ∈ groupUnassigned heap members,
      (heapGet heap j).date = "" := by
    intro j hj
    have := (List.mem_filter.mp hj).2
    simpa using this
  have hpartner : ∀ k i d2,
      (buildPairState heap
        (findAllPairsIdx dist heap (groupUnassigned heap members) 5)).2 k =
        some (i, d2) →
      i ∈ groupUnassigned heap members ∨ (heapGet heap i).date ≠ "" := by
    intro k i d2 hkk
    obtain ⟨t, ht, hti⟩ := buildPairState_values hkk
    have hmem := findAllPairsIdx_mem ht
    rcases hti with h | h
    · exact Or.inl (h ▸ hmem.1)
    · exact Or.inl (h ▸ hmem.2)
  rw [hGeq] at hok
  obtain ⟨I1, I2, I3, I4, I5⟩ := scheduleLoop_master dist centers city heap
    (groupUnassigned heap members) _ _ start heapF
    hpool_nodup hpool_lt hpool_undated hpartner hok
  have hsizes := scheduleLoop_log_sizes dist centers city heap
    (groupUnassigned heap members)
    (buildPairState heap (findAllPairsIdx dist heap
      (groupUnassigned heap members) 5)).1
    (buildPairState heap (findAllPairsIdx dist heap
      (groupUnassigned heap members) 5)).2 start
  rw [← hGeq] at I3 I4 I5 hsizes
  have hdate_at : ∀ t,
      (ht : t < ((scheduleGroup dist centers city heap members start).1).length) →
      (((scheduleGroup dist centers city heap members start).1)[t]).date =
        addDays t start := by
    intro t ht
    have h1 := congrArg (fun l => l[t]?)
      (scheduleGroup_trace_dates dist centers city heap members start)
    simp only [List.getElem?_map] at h1
    rw [List.getElem?_eq_getElem ht, List.getElem?_range ht] at h1
    simp only [Option.map_some', Option.some.injEq] at h1
    exact h1
  have hsmall : ∀ x ∈ ((scheduleGroup dist centers city heap
      members start).1).map (fun log => log.assigned.length),
      1 ≤ x ∧ x ≤ 2 := by
    intro x hx
    rw [List.mem_map] at hx
    obtain ⟨log, hlogmem, hxe⟩ := hx
    have hls := hsizes log hlogmem
    rw [← hxe]
    exact ⟨List.length_pos.mpr hls.1, hls.2⟩
  have hbounds := sum_bounds_of_one_two _ hsmall
  rw [List.length_map] at hbounds
  refine ⟨scheduleGroup_trace_dates dist centers city heap members start,
    ?_, ?_, by omega, by omega⟩
  · intro j hj
    obtain ⟨_, log, hlogmem, _, hjdate⟩ := I3 j hj
    obtain ⟨t, ht, hEl⟩ := List.getElem_of_mem hlogmem
    refine ⟨t, ht, ?_⟩
    rw [hjdate, ← hEl, hdate_at t ht]
  · intro t ht
    have hlogmem : ((scheduleGroup dist centers city heap
        members start).1)[t] ∈
        (scheduleGroup dist centers city heap members start).1 :=
      List.getElem_mem ht
    obtain ⟨j, hjass⟩ :=
      List.exists_mem_of_ne_nil _ (hsizes _ hlogmem).1
    obtain ⟨hjpool, hjdate⟩ := I4 _ hlogmem j hjass
    refine ⟨j, hjpool, ?_⟩
    rw [hjdate, hdate_at t ht]

/-- The heap the three-site example group run produces. -/
def egHeapGF : List Site :=
  match (scheduleGroup egDist egCenters3 "City" [egA, egB, egC] [0, 1, 2]
      ⟨2025, 1, 1⟩).2 with
  | .ok l => l
  | .error _ => []

/-- Witness for C10 at the concrete three-site group (k = 3 unassigned
sites, T = 2 iterations): the iteration dates are the consecutive days
from the start date, the assigned dates are exactly that run, and
ceil(3/2) = 2 ≤ T = 2 ≤ 3 = k. -/
theorem scheduleGroup_consecutive_dates_witness :
    ((scheduleGroup egDist egCenters3 "City" [egA, egB, egC] [0, 1, 2]
        ⟨2025, 1, 1⟩).1).map StepLog.date =
      (List.range ((scheduleGroup egDist egCenters3 "City" [egA, egB, egC]
          [0, 1, 2] ⟨2025, 1, 1⟩).1).length).map
        (fun t => addDays t ⟨2025, 1, 1⟩) ∧
    (∀ j ∈ groupUnassigned [egA, egB, egC] [0, 1, 2],
      ∃ t, t < ((scheduleGroup egDist egCenters3 "City" [egA, egB, egC]
          [0, 1, 2] ⟨2025, 1, 1⟩).1).length ∧
        (heapGet egHeapGF j).date = fmtDate (addDays t ⟨2025, 1, 1⟩)) ∧
    (∀ t, t < ((scheduleGroup egDist egCenters3 "City" [egA, egB, egC]
        [0, 1, 2] ⟨2025, 1, 1⟩).1).length →
      ∃ j ∈ groupUnassigned [egA, egB, egC] [0, 1, 2],
        (heapGet egHeapGF j).date = fmtDate (addDays t ⟨2025, 1, 1⟩)) ∧
    ((groupUnassigned [egA, egB, egC] [0, 1, 2]).length + 1) / 2 ≤
      ((scheduleGroup egDist egCenters3 "City" [egA, egB, egC] [0, 1, 2]
        ⟨2025, 1, 1⟩).1).length ∧
    ((scheduleGroup egDist egCenters3 "City" [egA, egB, egC] [0, 1, 2]
        ⟨2025, 1, 1⟩).1).length ≤
      (groupUnassigned [egA, egB, egC] [0, 1, 2]).length :=
  scheduleGroup_consecutive_dates egDist egCenters3 "City" [egA, egB, egC]
    [0, 1, 2] ⟨2025, 1, 1⟩ egHeapGF (by decide) (by decide)
    (by
      have e : (groupUnassigned [egA, egB, egC] [0, 1, 2]).length = 3 := by
        with_unfolding_all rfl
      omega)
    (by with_unfolding_all rfl)
